import Mathlib

/-!
Verification of the spatial restriction functions for temporal points
(`tpoint_restrfuncs.c`).  The C code is shallowly embedded: C `double`
becomes `ℚ` (exact arithmetic idealisation of the floating point
computation), timestamps become `ℚ`, and the external collaborators
(PostGIS geometry library, bounding-box computation, span library)
are either modelled from the specification or abstracted as oracle
parameters, as documented on each definition.
-/

set_option maxHeartbeats 1000000

namespace MobilityDB

/-! ## 2D points and the segment geometry kernel -/

/-- A 2D point (`POINT2D` of the source). -/
structure P2 where
  x : ℚ
  y : ℚ
deriving DecidableEq, Repr

/-- The possible ways a pair of segments can interact
(`MEOS_SEG_INTER_TYPE` of the source). -/
inductive SegInter where
  | noInter
  | overlap
  | cross
  | touchEnd
  | touch
deriving DecidableEq, Repr

/-- Numeric value of the `MEOS_SEG_INTER_TYPE` enum constants. -/
def SegInter.toInt : SegInter → Int
  | .noInter => 0
  | .overlap => 1
  | .cross => 2
  | .touchEnd => 3
  | .touch => 4

/-- Embedding of `parseg2d_intersection`: unique intersection point of two
closed collinear segments ab and cd whose bounding boxes intersect.
Returns the intersection kind together with the touching point when one
is produced. -/
def parseg2d_intersection (a b c d : P2) : SegInter × Option P2 :=
  let xmin := max (min a.x b.x) (min c.x d.x)
  let xmax := min (max a.x b.x) (max c.x d.x)
  let ymin := max (min a.y b.y) (min c.y d.y)
  let ymax := min (max a.y b.y) (max c.y d.y)
  if xmin < xmax ∨ ymin < ymax then
    (.overlap, none)
  else if (b.x = c.x ∧ b.y = c.y) ∨ (b.x = d.x ∧ b.y = d.y) then
    (.touchEnd, some b)
  else if (a.x = c.x ∧ a.y = c.y) ∨ (a.x = d.x ∧ a.y = d.y) then
    (.touchEnd, some a)
  else
    (.noInter, none)

/-- Embedding of `seg2d_side`: side of the oriented line p1→p2 on which q
lies, with an epsilon threshold absorbing roundoff.  The global constant
`MEOS_EPSILON` is threaded as the parameter `eps`. -/
def seg2d_side (eps : ℚ) (p1 p2 q : P2) : Int :=
  let side := (q.x - p1.x) * (p2.y - p1.y) - (p2.x - p1.x) * (q.y - p1.y)
  if |side| < eps then 0
  else if side > 0 then 1 else -1

/-- Embedding of `lw_seg_interact`: fast rejection using the axis-aligned
bounding boxes of the two segments.  The `FP_GT`/`FP_LT` comparison macros
of the external library are modelled as plain rational comparisons. -/
def lw_seg_interact (p1 p2 q1 q2 : P2) : Bool :=
  if min p1.x p2.x > max q1.x q2.x ∨ max p1.x p2.x < min q1.x q2.x then
    false
  else if min p1.y p2.y > max q1.y q2.y ∨ max p1.y p2.y < min q1.y q2.y then
    false
  else
    true

/-- Embedding of `seg2d_intersection`: classification of the interaction
of segment ab with segment cd, returning the unique touching point when
the classification is `touchEnd`. -/
def seg2d_intersection (eps : ℚ) (a b c d : P2) : SegInter × Option P2 :=
  if ¬ lw_seg_interact a b c d then
    (.noInter, none)
  else
    let pq1 := seg2d_side eps a b c
    let pq2 := seg2d_side eps a b d
    if (pq1 > 0 ∧ pq2 > 0) ∨ (pq1 < 0 ∧ pq2 < 0) then
      (.noInter, none)
    else
      let qp1 := seg2d_side eps c d a
      let qp2 := seg2d_side eps c d b
      if (qp1 > 0 ∧ qp2 > 0) ∨ (qp1 < 0 ∧ qp2 < 0) then
        (.noInter, none)
      else if pq1 = 0 ∧ pq2 = 0 ∧ qp1 = 0 ∧ qp2 = 0 then
        parseg2d_intersection a b c d
      else if pq1 = 0 ∨ pq2 = 0 ∨ qp1 = 0 ∨ qp2 = 0 then
        if (b.x = c.x ∧ b.y = c.y) ∨ (b.x = d.x ∧ b.y = d.y) then
          (.touchEnd, some b)
        else if (a.x = c.x ∧ a.y = c.y) ∨ (a.x = d.x ∧ a.y = d.y) then
          (.touchEnd, some a)
        else
          (.touch, none)
      else
        (.cross, none)

/-- The two segments ab and cd share exactly one endpoint (as coordinate
pairs): exactly one of the four endpoint identifications holds. -/
def oneSharedEndpoint (a b c d : P2) : Prop :=
  (a = c ∧ a ≠ d ∧ b ≠ c ∧ b ≠ d) ∨ (a = d ∧ a ≠ c ∧ b ≠ c ∧ b ≠ d) ∨
  (b = c ∧ a ≠ c ∧ a ≠ d ∧ b ≠ d) ∨ (b = d ∧ a ≠ c ∧ a ≠ d ∧ b ≠ c)

instance (a b c d : P2) : Decidable (oneSharedEndpoint a b c d) := by
  unfold oneSharedEndpoint; infer_instance

/-- The intersection of the bounding boxes of segments ab and cd is at most
a single point (the degeneracy test of `parseg2d_intersection`). -/
def parsegBoxPoint (a b c d : P2) : Prop :=
  ¬(max (min a.x b.x) (min c.x d.x) < min (max a.x b.x) (max c.x d.x) ∨
    max (min a.y b.y) (min c.y d.y) < min (max a.y b.y) (max c.y d.y))

instance (a b c d : P2) : Decidable (parsegBoxPoint a b c d) := by
  unfold parsegBoxPoint; infer_instance

/-! ## Temporal point data model -/

/-- A spatial point value (the serialized point of the source): 2D or 3D
coordinates with a spatial reference identifier and geodetic flag.  For a
2D point, the source stores no z ordinate; here `z` is meaningful only
when `hasz` is set. -/
structure GPoint where
  x : ℚ
  y : ℚ
  z : ℚ
  hasz : Bool
  srid : Int
  geodetic : Bool
deriving DecidableEq, Repr

instance : Inhabited GPoint := ⟨⟨0, 0, 0, false, 0, false⟩⟩

/-- The 2D projection of a point value (`datum_point2d`). -/
def GPoint.p2 (g : GPoint) : P2 := ⟨g.x, g.y⟩

/-- A temporal instant (`TInstant`): a point value with a timestamp. -/
structure TInstant where
  value : GPoint
  t : ℚ
deriving DecidableEq, Repr

instance : Inhabited TInstant := ⟨⟨default, 0⟩⟩

/-- The interpolation mode of a temporal sequence (`interpType`). -/
inductive interpType where
  | DISCRETE
  | STEP
  | LINEAR
deriving DecidableEq, Repr

/-- A temporal sequence (`TSequence`): an ordered list of instants with
inclusive/exclusive period bounds and an interpolation mode.  The cached
period of the source is derived from the first and last instants. -/
structure TSequence where
  insts : List TInstant
  lower_inc : Bool
  upper_inc : Bool
  interp : interpType
deriving DecidableEq, Repr

instance : Inhabited TSequence := ⟨⟨[], true, true, .DISCRETE⟩⟩

/-- Number of instants (`seq->count`). -/
def TSequence.count (seq : TSequence) : Nat := seq.insts.length

/-- The i-th instant (`TSEQUENCE_INST_N`). -/
def TSequence.instN (seq : TSequence) (i : Nat) : TInstant := seq.insts.getD i default

/-- The value of the i-th instant (`tinstant_value(TSEQUENCE_INST_N(seq, i))`). -/
def TSequence.valueN (seq : TSequence) (i : Nat) : GPoint := (seq.instN i).value

/-- The 2D point of the i-th instant. -/
def TSequence.pointN (seq : TSequence) (i : Nat) : P2 := (seq.valueN i).p2

/-- The timestamp of the i-th instant. -/
def TSequence.timeN (seq : TSequence) (i : Nat) : ℚ := (seq.instN i).t

/-- Timestamp of the first instant (the period lower bound). -/
def TSequence.startT (seq : TSequence) : ℚ := (seq.insts.headI).t

/-- Timestamp of the last instant (the period upper bound). -/
def TSequence.endT (seq : TSequence) : ℚ := (seq.insts.getLastI).t

/-! ## Self-intersection splitter -/

/-- Set one index of a boolean split array to true. -/
def updateBit (f : Nat → Bool) (j : Nat) : Nat → Bool :=
  fun m => if m = j then true else f m

/-- The breadth-first duplicate scan of `tpointseq_discstep_find_splits`:
the combined outer/inner while loops of the source, expressed as a
fuel-based tail recursion over the state (start, j, k).  `endIdx` is the
fixed `seq->count - 1`. -/
def discstepSplitsLoop (seq : TSequence) (endIdx : Nat) :
    Nat → Nat → Nat → Nat → (Nat → Bool) → Nat → ((Nat → Bool) × Nat)
  | 0, _, _, _, bitarr, n => (bitarr, n)
  | fuel + 1, start, j, k, bitarr, n =>
    if seq.valueN j = seq.valueN k then
      -- split at k and restart the window there
      if k < endIdx then
        discstepSplitsLoop seq endIdx fuel k k (k + 1) (updateBit bitarr k) (n + 1)
      else (updateBit bitarr k, n + 1)
    else if j < k - 1 then
      discstepSplitsLoop seq endIdx fuel start (j + 1) k bitarr n
    else if k + 1 > endIdx then (bitarr, n)
    else discstepSplitsLoop seq endIdx fuel start start (k + 1) bitarr n

/-- Embedding of `tpointseq_discstep_find_splits`: boolean split array and
split count for a discrete/step sequence (precondition: at least two
instants). -/
def tpointseq_discstep_find_splits (seq : TSequence) : (Nat → Bool) × Nat :=
  if seq.count ≤ 1 then (fun _ => false, 0)
  else
    discstepSplitsLoop seq (seq.count - 1)
      ((seq.count + 2) * (seq.count + 2) * (seq.count + 2)) 0 0 1 (fun _ => false) 0

/-- The first phase of `tpointseq_linear_find_splits`: mark forced splits
around stationary segments, iterating i upward from 1. -/
def linearStatLoop (seq : TSequence) (cnt : Nat) :
    Nat → Nat → (Nat → Bool) → Nat → ((Nat → Bool) × Nat)
  | 0, _, bitarr, n => (bitarr, n)
  | fuel + 1, i, bitarr, n =>
    if i < cnt then
      if seq.pointN (i - 1) = seq.pointN i then
        let s1 := if 1 < i ∧ bitarr (i - 1) = false then
            (updateBit bitarr (i - 1), n + 1) else (bitarr, n)
        let s2 := if i < cnt - 1 then (updateBit s1.1 i, s1.2 + 1) else s1
        linearStatLoop seq cnt fuel (i + 1) s2.1 s2.2
      else linearStatLoop seq cnt fuel (i + 1) bitarr n
    else (bitarr, n)

/-- Scan for the end of the current un-cut window:
`while (end < count - 1 && ! bitarr[end]) end++`. -/
def endScanCont (bitarr : Nat → Bool) (cnt : Nat) : Nat → Nat → Nat
  | 0, e => e
  | fuel + 1, e => if e < cnt - 1 ∧ bitarr e = false then endScanCont bitarr cnt fuel (e + 1) else e

/-- The pair (i, j) of segments is an accepted intersection of the window
scan of `tpointseq_linear_find_splits`: the segment bounding boxes
interact and the intersection kind forces a cut (excluding the ordinary
shared corner of two consecutive segments). -/
def linearPairHit (eps : ℚ) (seq : TSequence) (i j : Nat) : Prop :=
  lw_seg_interact (seq.pointN i) (seq.pointN (i + 1)) (seq.pointN j)
    (seq.pointN (j + 1)) = true ∧
  (let r := seg2d_intersection eps (seq.pointN i) (seq.pointN (i + 1))
    (seq.pointN j) (seq.pointN (j + 1))
   r.1.toInt > 0 ∧ (r.1 ≠ SegInter.touchEnd ∨ j ≠ i + 1 ∨
     (r.2.getD ⟨0, 0⟩).x ≠ (seq.pointN j).x ∨ (r.2.getD ⟨0, 0⟩).y ≠ (seq.pointN j).y))

instance (eps : ℚ) (seq : TSequence) (i j : Nat) :
    Decidable (linearPairHit eps seq i j) := by
  unfold linearPairHit; infer_instance

/-- The second phase of `tpointseq_linear_find_splits`: the combined
outer window loop and inner breadth-first pair scan.  When `inner` is
false the state is at the head of the outer loop with window start
`start`; when `inner` is true the pair (i, j) is being examined inside
the window [start, endIdx]. -/
def linearSplitLoop (eps : ℚ) (seq : TSequence) (cnt : Nat) :
    Nat → Bool → Nat → Nat → Nat → Nat → (Nat → Bool) → Nat → ((Nat → Bool) × Nat)
  | 0, _, _, _, _, _, bitarr, n => (bitarr, n)
  | fuel + 1, false, start, _, _, _, bitarr, n =>
    if start < cnt - 2 then
      let e := endScanCont bitarr cnt cnt (start + 1)
      if e = start + 1 then
        linearSplitLoop eps seq cnt fuel false e 0 0 0 bitarr n
      else
        linearSplitLoop eps seq cnt fuel true start e start (start + 1) bitarr n
    else (bitarr, n)
  | fuel + 1, true, start, endIdx, i, j, bitarr, n =>
    if j < endIdx then
      if linearPairHit eps seq i j then
        -- set the new end at j and restart the outer loop there
        linearSplitLoop eps seq cnt fuel false j 0 0 0 (updateBit bitarr j) (n + 1)
      else if i < j - 1 then
        linearSplitLoop eps seq cnt fuel true start endIdx (i + 1) j bitarr n
      else
        linearSplitLoop eps seq cnt fuel true start endIdx start (j + 1) bitarr n
    else linearSplitLoop eps seq cnt fuel false endIdx 0 0 0 bitarr n

/-- Embedding of `tpointseq_linear_find_splits`: boolean split array and
split count for a sequence with linear interpolation (splits around
stationary segments, then further splits at intersecting segment
pairs). -/
def tpointseq_linear_find_splits (eps : ℚ) (seq : TSequence) : (Nat → Bool) × Nat :=
  let cnt := seq.count
  let s1 := linearStatLoop seq cnt cnt 1 (fun _ => false) 0
  linearSplitLoop eps seq cnt ((cnt + 2) * (cnt + 2) * (cnt + 2)) false 0 0 0 0 s1.1 s1.2

/-! ## Simplicity test and fragment construction -/

/-- Total Boolean comparison used to model `datumarr_sort` on point
values: lexicographic on the coordinates. -/
def GPoint.leB (g h : GPoint) : Bool :=
  if g.x < h.x then true
  else if h.x < g.x then false
  else if g.y < h.y then true
  else if h.y < g.y then false
  else decide (g.z ≤ h.z)

/-- Insert into a sorted list (for modelling `datumarr_sort`). -/
def insertSortedPoint (g : GPoint) : List GPoint → List GPoint
  | [] => [g]
  | h :: rest => if g.leB h then g :: h :: rest else h :: insertSortedPoint g rest

/-- Insertion sort on point values (for modelling `datumarr_sort`). -/
def sortPoints : List GPoint → List GPoint
  | [] => []
  | g :: rest => insertSortedPoint g (sortPoints rest)

/-- Adjacent duplicate scan after sorting (the `found` loop of
`tpointseq_discstep_is_simple`). -/
def hasAdjDup : List GPoint → Bool
  | a :: b :: rest => a = b || hasAdjDup (b :: rest)
  | _ => false

/-- Embedding of `tpointseq_discstep_is_simple`: a discrete/step sequence
is simple iff its sorted value array has no duplicate. -/
def tpointseq_discstep_is_simple (seq : TSequence) : Bool :=
  !(hasAdjDup (sortPoints (seq.insts.map (·.value))))

/-- Embedding of `tpointseq_is_simple`. -/
def tpointseq_is_simple (eps : ℚ) (seq : TSequence) : Bool :=
  if seq.count = 1 then true
  else if seq.interp ≠ interpType.LINEAR then tpointseq_discstep_is_simple seq
  else decide ((tpointseq_linear_find_splits eps seq).2 = 0)

/-- Scan for the end of the current discrete split:
`while (end < count && ! splits[end]) end++`. -/
def endScanDisc (splits : Nat → Bool) (cnt : Nat) : Nat → Nat → Nat
  | 0, e => e
  | fuel + 1, e => if e < cnt ∧ splits e = false then endScanDisc splits cnt fuel (e + 1) else e

/-- The loop of `tpointseq_disc_split`: cut the instant array at the
marked indices into discrete fragments. -/
def discSplitLoop (seq : TSequence) (cnt : Nat) (splits : Nat → Bool) :
    Nat → Nat → List TSequence
  | 0, _ => []
  | fuel + 1, start =>
    if start < cnt then
      let e := endScanDisc splits cnt cnt (start + 1)
      ⟨(seq.insts.drop start).take (e - start), true, true, .DISCRETE⟩ ::
        discSplitLoop seq cnt splits fuel e
    else []

/-- Embedding of `tpointseq_disc_split`. -/
def tpointseq_disc_split (seq : TSequence) (splits : Nat → Bool) : List TSequence :=
  discSplitLoop seq seq.count splits (seq.count + 1) 0

/-- The loop of `tpointseq_cont_split`: cut a continuous (step or linear)
sequence at the marked indices; adjoining fragments share the cut
instant, and for step interpolation a fragment closed by a value change
receives a synthetic duplicate-valued final instant. -/
def contSplitLoop (seq : TSequence) (cnt : Nat) (splits : Nat → Bool) (linear : Bool) :
    Nat → Nat → List TSequence
  | 0, _ => []
  | fuel + 1, start =>
    if start < cnt - 1 then
      let e := endScanCont splits cnt cnt (start + 1)
      let insts0 := (seq.insts.drop start).take (e - start + 1)
      let lower1 := if start = 0 then seq.lower_inc else true
      let upper1 := if e = cnt - 1 then seq.upper_inc && !(splits (cnt - 1)) else false
      let insts1 :=
        if linear = false ∧ upper1 = false ∧ seq.valueN (e - 1) ≠ seq.valueN e then
          insts0.dropLast ++ [⟨seq.valueN (e - 1), seq.timeN e⟩]
        else insts0
      ⟨insts1, lower1, upper1, if linear then .LINEAR else .STEP⟩ ::
        contSplitLoop seq cnt splits linear fuel e
    else []

/-- Embedding of `tpointseq_cont_split`: the main loop plus the trailing
single-instant fragment added when the final instant is itself a cut. -/
def tpointseq_cont_split (seq : TSequence) (splits : Nat → Bool) (linear : Bool) :
    List TSequence :=
  let main := contSplitLoop seq seq.count splits linear (seq.count + 1) 0
  if splits (seq.count - 1) then
    main ++ [⟨[seq.instN (seq.count - 1)], true, seq.upper_inc,
      if linear then .LINEAR else .STEP⟩]
  else main

/-- Embedding of `tpointseq_make_simple`: split a temporal sequence into
fragments at the computed split indices, with the special cases for 1-
and 2-instant sequences. -/
def tpointseq_make_simple (eps : ℚ) (seq : TSequence) : List TSequence :=
  let interp := seq.interp
  if (interp = .DISCRETE ∧ seq.count = 1) ∨ (interp ≠ .DISCRETE ∧ seq.count ≤ 2) then
    [seq]
  else
    let s := if interp = .LINEAR then tpointseq_linear_find_splits eps seq
      else tpointseq_discstep_find_splits seq
    if s.2 = 0 then [seq]
    else if interp = .DISCRETE then tpointseq_disc_split seq s.1
    else tpointseq_cont_split seq s.1 (decide (interp = .LINEAR))

/-! ## Spans and spatiotemporal boxes -/

/-- A one-dimensional span with inclusive/exclusive bounds (`Span`).
Modelled from the spec: the generic span type of the source lives
outside this file (general/span.c); §3 of the spec describes it as an
interval with inclusive/exclusive bounds at each end. -/
structure Span where
  lower : ℚ
  upper : ℚ
  lower_inc : Bool
  upper_inc : Bool
deriving DecidableEq, Repr

/-- Membership in a span (`contains_span_value`).  Modelled from the
spec (§3 Span/Period): the bound is attained only when inclusive. -/
def Span.containsQ (s : Span) (v : ℚ) : Bool :=
  (decide (s.lower < v) || (s.lower_inc && decide (s.lower = v))) &&
  (decide (v < s.upper) || (s.upper_inc && decide (v = s.upper)))

/-- A spatiotemporal box (`STBox`): optional spatial (X) dimension with
optional Z sub-dimension, optional time period, SRID and geodetic flag. -/
structure STBox where
  hasx : Bool
  xmin : ℚ
  xmax : ℚ
  ymin : ℚ
  ymax : ℚ
  hasz : Bool
  zmin : ℚ
  zmax : ℚ
  hast : Bool
  period : Span
  srid : Int
  geodetic : Bool
deriving DecidableEq, Repr

/-! ## Region codes and the Cohen–Sutherland clipping algorithm -/

/-- A 6-bit region code (the `INSIDE/LEFT/RIGHT/BOTTOM/TOP/FRONT/BACK`
bit masks of the source, represented as six named bits). -/
structure RegionCode where
  left : Bool
  right : Bool
  bottom : Bool
  top : Bool
  front : Bool
  back : Bool
deriving DecidableEq, Repr

/-- The code of a point entirely inside the box (`INSIDE`, all bits 0). -/
def RegionCode.zero : RegionCode := ⟨false, false, false, false, false, false⟩

/-- Test for the zero code (`code == 0`). -/
def RegionCode.isZero (c : RegionCode) : Bool :=
  !(c.left || c.right || c.bottom || c.top || c.front || c.back)

/-- Bitwise or of two region codes (`code1 | code2`). -/
def RegionCode.orc (c d : RegionCode) : RegionCode :=
  ⟨c.left || d.left, c.right || d.right, c.bottom || d.bottom,
    c.top || d.top, c.front || d.front, c.back || d.back⟩

/-- Bitwise and of two region codes is nonzero (`code1 & code2`). -/
def RegionCode.interAny (c d : RegionCode) : Bool :=
  (c.left && d.left) || (c.right && d.right) || (c.bottom && d.bottom) ||
  (c.top && d.top) || (c.front && d.front) || (c.back && d.back)

/-- Number of set bits of a region code (the termination measure). -/
def RegionCode.popcount (c : RegionCode) : Nat :=
  c.left.toNat + c.right.toNat + c.bottom.toNat + c.top.toNat +
    c.front.toNat + c.back.toNat

/-- Embedding of `computeCode`: region code of a point (x, y, z); the z
axis participates only when `hasz`. -/
def computeCode (x y z : ℚ) (hasz : Bool) (box : STBox) : RegionCode where
  left := decide (x < box.xmin)
  right := !decide (x < box.xmin) && decide (x > box.xmax)
  bottom := decide (y < box.ymin)
  top := !decide (y < box.ymin) && decide (y > box.ymax)
  front := hasz && decide (z < box.zmin)
  back := hasz && !decide (z < box.zmin) && decide (z > box.zmax)

/-- A 3-bit max-border code (the `XMAX/YMAX/ZMAX` bit masks). -/
structure MaxCode where
  mx : Bool
  my : Bool
  mz : Bool
deriving DecidableEq, Repr

/-- Test for the zero max-border code. -/
def MaxCode.isZero (m : MaxCode) : Bool := !(m.mx || m.my || m.mz)

/-- Bitwise and of two max-border codes is nonzero. -/
def MaxCode.interAny (m n : MaxCode) : Bool :=
  (m.mx && n.mx) || (m.my && n.my) || (m.mz && n.mz)

/-- Embedding of `computeMaxBorderCode`: which maximum borders the point
lies on (within epsilon). -/
def computeMaxBorderCode (eps x y z : ℚ) (hasz : Bool) (box : STBox) : MaxCode where
  mx := decide (box.xmax - x < eps)
  my := decide (box.ymax - y < eps)
  mz := hasz && decide (box.zmax - z < eps)

/-- The state of the clipping loop: the two (possibly already clipped)
endpoints as raw coordinates, exactly the six locals of the source. -/
structure ClipState where
  x1 : ℚ
  y1 : ℚ
  z1 : ℚ
  x2 : ℚ
  y2 : ℚ
  z2 : ℚ
deriving DecidableEq, Repr

/-- Region code of the first endpoint of the state. -/
def csCode1 (box : STBox) (hasz : Bool) (s : ClipState) : RegionCode :=
  computeCode s.x1 s.y1 s.z1 hasz box

/-- Region code of the second endpoint of the state. -/
def csCode2 (box : STBox) (hasz : Bool) (s : ClipState) : RegionCode :=
  computeCode s.x2 s.y2 s.z2 hasz box

/-- The outside code picked by the loop (`code_out`): code1 when nonzero,
else code2. -/
def csCodeOut (box : STBox) (hasz : Bool) (s : ClipState) : RegionCode :=
  if (csCode1 box hasz s).isZero = false then csCode1 box hasz s
  else csCode2 box hasz s

/-- The intersection of the current segment with the single violated box
face of highest priority (the face selection if-chain of the source).
Returns the replacement coordinates (x, y, z). -/
def clipPoint (box : STBox) (hasz : Bool) (cOut : RegionCode) (s : ClipState) :
    ℚ × ℚ × ℚ :=
  if cOut.left then
    (box.xmin,
     s.y1 + (s.y2 - s.y1) * (box.xmin - s.x1) / (s.x2 - s.x1),
     if hasz then s.z1 + (s.z2 - s.z1) * (box.xmin - s.x1) / (s.x2 - s.x1) else 0)
  else if cOut.right then
    (box.xmax,
     s.y1 + (s.y2 - s.y1) * (box.xmax - s.x1) / (s.x2 - s.x1),
     if hasz then s.z1 + (s.z2 - s.z1) * (box.xmax - s.x1) / (s.x2 - s.x1) else 0)
  else if cOut.bottom then
    (s.x1 + (s.x2 - s.x1) * (box.ymin - s.y1) / (s.y2 - s.y1),
     box.ymin,
     if hasz then s.z1 + (s.z2 - s.z1) * (box.ymin - s.y1) / (s.y2 - s.y1) else 0)
  else if cOut.top then
    (s.x1 + (s.x2 - s.x1) * (box.ymax - s.y1) / (s.y2 - s.y1),
     box.ymax,
     if hasz then s.z1 + (s.z2 - s.z1) * (box.ymax - s.y1) / (s.y2 - s.y1) else 0)
  else if hasz && cOut.front then
    (s.x1 + (s.x2 - s.x1) * (box.zmin - s.z1) / (s.z2 - s.z1),
     s.y1 + (s.y2 - s.y1) * (box.zmin - s.z1) / (s.z2 - s.z1),
     box.zmin)
  else if hasz && cOut.back then
    (s.x1 + (s.x2 - s.x1) * (box.zmax - s.z1) / (s.z2 - s.z1),
     s.y1 + (s.y2 - s.y1) * (box.zmax - s.z1) / (s.z2 - s.z1),
     box.zmax)
  else
    -- unreachable for a nonzero code computed with the same hasz
    (s.x1, s.y1, s.z1)

/-- One clipping iteration: replace the outside endpoint by the face
intersection (z only updated in 3D mode, as in the source). -/
def clipOnce (box : STBox) (hasz : Bool) (s : ClipState) : ClipState :=
  let cOut := csCodeOut box hasz s
  let p := clipPoint box hasz cOut s
  if cOut = csCode1 box hasz s then
    { s with x1 := p.1, y1 := p.2.1, z1 := if hasz then p.2.2 else s.z1 }
  else
    { s with x2 := p.1, y2 := p.2.1, z2 := if hasz then p.2.2 else s.z2 }

/-- The clipping loop of `cohenSutherlandClip` as a fuel-based recursion:
`some (true, s)` is acceptance, `some (false, s)` rejection, `none` fuel
exhaustion (proven unreachable with fuel 8). -/
def csLoop (box : STBox) (hasz : Bool) : Nat → ClipState → Option (Bool × ClipState)
  | 0, _ => none
  | fuel + 1, s =>
    if ((csCode1 box hasz s).orc (csCode2 box hasz s)).isZero then some (true, s)
    else if (csCode1 box hasz s).interAny (csCode2 box hasz s) then some (false, s)
    else csLoop box hasz fuel (clipOnce box hasz s)

/-- Construction of a serialized point (`gspoint_make`); a 2D point
carries no z ordinate, represented canonically by z = 0. -/
def gspoint_make (x y z : ℚ) (hasz geodetic : Bool) (srid : Int) : GPoint :=
  ⟨x, y, if hasz then z else 0, hasz, srid, geodetic⟩

/-- The result of an accepted clip: the two output points and the
optional per-endpoint inclusion flags (written only when the border is
exclusive, as in the source). -/
structure ClipRes where
  p3 : GPoint
  p4 : GPoint
  p3_inc : Option Bool
  p4_inc : Option Bool
deriving DecidableEq, Repr

/-- Embedding of `cohenSutherlandClip`: clip the segment p1-p2 against
the box.  `none` is rejection (return false); `some r` acceptance with
output points and inclusion flags.  The `while (true)` loop of the
source is run with fuel 8, which theorem `c10_clip_terminates` shows is
never exhausted (the inner `Option` of `csLoop` collapses below). -/
def cohenSutherlandClip (eps : ℚ) (p1 p2 : GPoint) (box : STBox)
    (hasz border_inc : Bool) : Option ClipRes :=
  let srid := p1.srid
  let s0 : ClipState := ⟨p1.x, p1.y, if hasz then p1.z else 0,
    p2.x, p2.y, if hasz then p2.z else 0⟩
  match csLoop box hasz 8 s0 with
  | none => none
  | some (false, _) => none
  | some (true, s) =>
    if border_inc then
      some ⟨gspoint_make s.x1 s.y1 s.z1 hasz false srid,
        gspoint_make s.x2 s.y2 s.z2 hasz false srid, none, none⟩
    else
      let m1 := computeMaxBorderCode eps s.x1 s.y1 s.z1 hasz box
      let m2 := computeMaxBorderCode eps s.x2 s.y2 s.z2 hasz box
      if m1.interAny m2 then none
      else
        some ⟨gspoint_make s.x1 s.y1 s.z1 hasz false srid,
          gspoint_make s.x2 s.y2 s.z2 hasz false srid,
          some m1.isZero, some m2.isZero⟩

/-- Embedding of `tpointinst_restrict_stbox_iter`: point-in-box
membership for a temporal instant, with optional time dimension and
optional exclusive upper border. -/
def tpointinst_restrict_stbox_iter (eps : ℚ) (inst : TInstant) (box : STBox)
    (border_inc atfunc : Bool) : Bool :=
  let hasz := inst.value.hasz && box.hasz
  if box.hast && !(box.period.containsQ inst.t) then !atfunc
  else
    let x := inst.value.x
    let y := inst.value.y
    let z := if hasz then inst.value.z else 0
    let code := computeCode x y z hasz box
    let max_code := if border_inc then MaxCode.mk false false false
      else computeMaxBorderCode eps x y z hasz box
    if code.isZero = false ∨ max_code.isZero = false then !atfunc
    else atfunc

/-- A serialized geometry as the restriction entry point sees it: the
only attributes `tpoint_restrict_geom_time` inspects directly are
emptiness, SRID and the Z flag (`gserialized_is_empty`,
`gserialized_get_srid`, `FLAGS_GET_Z`). -/
structure Geom where
  isEmpty : Bool
  srid : Int
  hasZ : Bool
deriving DecidableEq, Repr

/-- The error conditions that the `ensure_*` parameter tests of the two
entry points can raise (each aborts with an invalid-argument error). -/
inductive RestrictError where
  | sameSrid
  | hasNotZGs
  | hasZ
  | sameGeodetic
deriving DecidableEq, Repr

/-- A temporal point value: instant, sequence or sequence set. -/
inductive Temporal where
  | inst : TInstant → Temporal
  | seq : TSequence → Temporal
  | seqset : List TSequence → Temporal
deriving DecidableEq, Repr

/-- The SRID of a temporal point (`tpoint_srid`), read from its first
spatial value. -/
def tpoint_srid : Temporal → Int
  | .inst i => i.value.srid
  | .seq s => (s.instN 0).value.srid
  | .seqset l => ((l.headI).instN 0).value.srid

/-- Whether a temporal point has a Z dimension (`MEOS_FLAGS_GET_Z` on
the temporal flags), read from its first spatial value. -/
def tpoint_hasZ : Temporal → Bool
  | .inst i => i.value.hasz
  | .seq s => (s.instN 0).value.hasz
  | .seqset l => ((l.headI).instN 0).value.hasz

/-- Whether a temporal point is geodetic, read from its first spatial
value. -/
def tpoint_geodetic : Temporal → Bool
  | .inst i => i.value.geodetic
  | .seq s => (s.instN 0).value.geodetic
  | .seqset l => ((l.headI).instN 0).value.geodetic

/-- Embedding of the entry point `tpoint_restrict_geom_time`: the
parameter tests and the bounding-box test that precede the per-subtype
dispatch.  The bounding-box overlap test (`overlaps_stbox_stbox`, whose
code lives outside this file) is the oracle `bboxOverlaps`, and the
per-subtype dispatch is the oracle `dispatch`; `temporal_copy temp` is
modelled as `temp` itself.  `.error e` models an ereport abort,
`.ok none` a NULL result and `.ok (some t)` a non-NULL result.  The
`period` argument only feeds the bounding-box oracle, so it is absorbed
by `bboxOverlaps`. -/
def tpoint_restrict_geom_time (temp : Temporal) (gs : Geom)
    (zspan : Option Span) (atfunc : Bool) (bboxOverlaps : Bool)
    (dispatch : Bool → Option Temporal) :
    Except RestrictError (Option Temporal) :=
  if gs.isEmpty then .ok (if atfunc then none else some temp)
  else if tpoint_srid temp ≠ gs.srid then .error .sameSrid
  else if gs.hasZ then .error .hasNotZGs
  else if zspan.isSome && ! tpoint_hasZ temp then .error .hasZ
  else if !bboxOverlaps then .ok (if atfunc then none else some temp)
  else .ok (dispatch atfunc)

/-- Embedding of the entry point `tpoint_restrict_stbox`: the T-only
short circuit, the parameter tests and the bounding-box test that
precede the per-subtype dispatch.  `restrictPeriod`
(`temporal_restrict_period`), `bboxOverlaps` (`overlaps_stbox_stbox`)
and the per-subtype `dispatch` are oracles for code outside this file;
`temporal_copy temp` is modelled as `temp` itself.  The `border_inc`
argument only feeds the dispatch, so it is absorbed by `dispatch`. -/
def tpoint_restrict_stbox (temp : Temporal) (box : STBox)
    (atfunc : Bool) (restrictPeriod : Bool → Option Temporal)
    (bboxOverlaps : Bool) (dispatch : Bool → Option Temporal) :
    Except RestrictError (Option Temporal) :=
  if box.hast && !box.hasx then .ok (restrictPeriod atfunc)
  else if tpoint_srid temp ≠ box.srid then .error .sameSrid
  else if tpoint_geodetic temp ≠ box.geodetic then .error .sameGeodetic
  else if !bboxOverlaps then .ok (if atfunc then none else some temp)
  else .ok (dispatch atfunc)

/-- The period of a continuous sequence (`seq->period`): the span from
the first to the last timestamp with the sequence bounds. -/
def TSequence.period (seq : TSequence) : Span :=
  ⟨seq.startT, seq.endT, seq.lower_inc, seq.upper_inc⟩

/-- Modelled from the spec: intersection of two spans
(`inter_span_span`, code outside this file); `none` models an empty
intersection (the function returning false). -/
def inter_span_span (s1 s2 : Span) : Option Span :=
  let lo := max s1.lower s2.lower
  let hi := min s1.upper s2.upper
  let lo_inc := if s1.lower = s2.lower then (s1.lower_inc && s2.lower_inc)
    else if s1.lower < s2.lower then s2.lower_inc else s1.lower_inc
  let hi_inc := if s1.upper = s2.upper then (s1.upper_inc && s2.upper_inc)
    else if s1.upper < s2.upper then s1.upper_inc else s2.upper_inc
  if lo < hi then some ⟨lo, hi, lo_inc, hi_inc⟩
  else if lo = hi ∧ lo_inc = true ∧ hi_inc = true then
    some ⟨lo, hi, lo_inc, hi_inc⟩
  else none

/-- Embedding of `tpointinst_restrict_geom_time_iter`: does the instant
pass the restriction?  The 2D geometry intersection test
(`geom_intersects2d`, a PostGIS call) is the oracle `intersects`. -/
def tpointinst_restrict_geom_time_iter (inst : TInstant)
    (intersects : GPoint → Bool) (zspan period : Option Span)
    (atfunc : Bool) : Bool :=
  if (match period with
      | some p => ! p.containsQ inst.t
      | none => false) then !atfunc
  else if (match zspan with
      | some zs => ! zs.containsQ inst.value.z
      | none => false) then !atfunc
  else if ! intersects inst.value then !atfunc
  else atfunc

/-- The loop of `tpointseq_step_at_geom_time_iter` over the instants:
`acc` is the pending instant array (`instants`, `k`), `res` the emitted
sequences (`result`, `l`).  `timespan` is the precomputed intersection
of the sequence period with the restriction period (`some` iff a period
was given); `start`, `start_inc`, `endt`, `end_inc` are the sequence
period bounds. -/
def stepGeomLoop (intersects : GPoint → Bool) (zspan period : Option Span)
    (timespan : Option Span) (start : ℚ) (start_inc : Bool) (endt : ℚ)
    (end_inc : Bool) :
    List TInstant → List TInstant → List TSequence → List TSequence
  | [], acc, res =>
    if acc.isEmpty then res
    else
      let lower_inc := if (acc.headD default).t = start then start_inc else true
      let upper_inc := if (acc.getLastD default).t = endt then end_inc else false
      res ++ [⟨acc, lower_inc, upper_inc, .STEP⟩]
  | inst :: rest, acc, res =>
    if tpointinst_restrict_geom_time_iter inst intersects zspan period true then
      stepGeomLoop intersects zspan period timespan start start_inc endt end_inc
        rest (acc ++ [inst]) res
    else if acc.isEmpty then
      stepGeomLoop intersects zspan period timespan start start_inc endt end_inc
        rest acc res
    else
      let value := (acc.getLastD default).value
      let closed : List TInstant × Bool :=
        match timespan with
        | none => (acc ++ [⟨value, inst.t⟩], false)
        | some ts =>
          match inter_span_span ts ⟨(acc.getLastD default).t, inst.t, true, false⟩ with
          | none => (acc, false)
          | some inter =>
            if inter.lower ≠ inter.upper then (acc ++ [⟨value, inter.upper⟩], false)
            else (acc, true)
      let lower_inc := if (closed.1.headD default).t = start then start_inc else true
      stepGeomLoop intersects zspan period timespan start start_inc endt end_inc
        rest [] (res ++ [⟨closed.1, lower_inc, closed.2, .STEP⟩])

/-- Embedding of `tpointseq_step_at_geom_time_iter`: the At restriction
of a step sequence to a geometry, Z span and period, as a list of step
fragments; `[]` models a NULL result with count 0. -/
def tpointseq_step_at_geom_time_iter (seq : TSequence)
    (intersects : GPoint → Bool) (zspan period : Option Span) :
    List TSequence :=
  match period with
  | some p =>
    match inter_span_span seq.period p with
    | none => []
    | some ts => stepGeomLoop intersects zspan period (some ts) seq.startT
        seq.lower_inc seq.endT seq.upper_inc seq.insts [] []
  | none => stepGeomLoop intersects zspan period none seq.startT
      seq.lower_inc seq.endT seq.upper_inc seq.insts [] []

/-- Embedding of the At path of `tpointseq_step_restrict_geom_time`:
the instantaneous short circuit, then the iteration; `none` models a
NULL result and `some l` the sequence set with the fragments `l`. -/
def tpointseq_step_restrict_geom_time_at (seq : TSequence)
    (intersects : GPoint → Bool) (zspan period : Option Span) :
    Option (List TSequence) :=
  if seq.count = 1 then
    if tpointinst_restrict_geom_time_iter (seq.instN 0) intersects zspan
        period true
    then some [seq] else none
  else
    let l := tpointseq_step_at_geom_time_iter seq intersects zspan period
    if l.isEmpty then none else some l

theorem P2.eq_iff {u v : P2} : u = v ↔ (u.x = v.x ∧ u.y = v.y) := by
  cases u; cases v; simp

/-- The side test of the second segment endpoint wrt the segment itself is 0. -/
theorem seg2d_side_snd {eps : ℚ} (heps : 0 < eps) (p1 p2 : P2) :
    seg2d_side eps p1 p2 p2 = 0 := by
  have h : (p2.x - p1.x) * (p2.y - p1.y) - (p2.x - p1.x) * (p2.y - p1.y) = 0 := by ring
  simp only [seg2d_side, h]
  rw [if_pos]
  simpa using heps

/-- The side test of the first segment endpoint wrt the segment itself is 0. -/
theorem seg2d_side_fst {eps : ℚ} (heps : 0 < eps) (p1 p2 : P2) :
    seg2d_side eps p1 p2 p1 = 0 := by
  have h : (p1.x - p1.x) * (p2.y - p1.y) - (p2.x - p1.x) * (p1.y - p1.y) = 0 := by ring
  simp only [seg2d_side, h]
  rw [if_pos]
  simpa using heps

/-- If a point is an endpoint of both segments, the bounding boxes interact. -/
theorem lw_seg_interact_of_shared {a b c d u : P2}
    (h1 : u = a ∨ u = b) (h2 : u = c ∨ u = d) :
    lw_seg_interact a b c d = true := by
  have hx1 : min a.x b.x ≤ u.x ∧ u.x ≤ max a.x b.x := by
    rcases h1 with h | h <;> subst h <;>
      exact ⟨by simp [min_le_left, min_le_right], by simp [le_max_left, le_max_right]⟩
  have hy1 : min a.y b.y ≤ u.y ∧ u.y ≤ max a.y b.y := by
    rcases h1 with h | h <;> subst h <;>
      exact ⟨by simp [min_le_left, min_le_right], by simp [le_max_left, le_max_right]⟩
  have hx2 : min c.x d.x ≤ u.x ∧ u.x ≤ max c.x d.x := by
    rcases h2 with h | h <;> subst h <;>
      exact ⟨by simp [min_le_left, min_le_right], by simp [le_max_left, le_max_right]⟩
  have hy2 : min c.y d.y ≤ u.y ∧ u.y ≤ max c.y d.y := by
    rcases h2 with h | h <;> subst h <;>
      exact ⟨by simp [min_le_left, min_le_right], by simp [le_max_left, le_max_right]⟩
  have hA : ¬(min a.x b.x > max c.x d.x ∨ max a.x b.x < min c.x d.x) := by
    push_neg
    exact ⟨le_trans hx1.1 hx2.2, le_trans hx2.1 hx1.2⟩
  have hB : ¬(min a.y b.y > max c.y d.y ∨ max a.y b.y < min c.y d.y) := by
    push_neg
    exact ⟨le_trans hy1.1 hy2.2, le_trans hy2.1 hy1.2⟩
  unfold lw_seg_interact
  rw [if_neg hA, if_neg hB]

/-- C5 counterexample: the segments (0,0)-(2,0) and (2,0)-(1,0) share
exactly one endpoint with identical coordinates, yet `seg2d_intersection`
classifies them as `overlap` (they overlap collinearly), not
`touchEnd`, refuting the claim that every pair of segments sharing
exactly one endpoint classifies as `TouchAtSharedEndpoint`. -/
theorem c5_counterexample :
    oneSharedEndpoint ⟨0, 0⟩ ⟨2, 0⟩ ⟨2, 0⟩ ⟨1, 0⟩ ∧
    (seg2d_intersection (1/100000) ⟨0, 0⟩ ⟨2, 0⟩ ⟨2, 0⟩ ⟨1, 0⟩).1 = SegInter.overlap ∧
    SegInter.overlap ≠ SegInter.touchEnd := by
  refine ⟨?_, ?_, by simp⟩
  · unfold oneSharedEndpoint
    norm_num [P2.eq_iff]
  · norm_num [seg2d_intersection, lw_seg_interact, seg2d_side,
      parseg2d_intersection]

/-- The touching-endpoint branch of `parseg2d_intersection` classifies a
single shared endpoint as `touchEnd` when the bounding boxes meet in at
most a point. -/
theorem parseg2d_touchEnd {a b c d : P2} (hdeg : parsegBoxPoint a b c d)
    (hshare : oneSharedEndpoint a b c d) (hab : a ≠ b) (hcd : c ≠ d) :
    (parseg2d_intersection a b c d).1 = SegInter.touchEnd := by
  have hne : ∀ u v : P2, u ≠ v → ¬(u.x = v.x ∧ u.y = v.y) := fun u v huv h =>
    huv (P2.eq_iff.mpr h)
  unfold parseg2d_intersection
  rw [if_neg hdeg]
  rcases hshare with ⟨h, hne1, hne2, hne3⟩ | ⟨h, hne1, hne2, hne3⟩ |
    ⟨h, hne1, hne2, hne3⟩ | ⟨h, hne1, hne2, hne3⟩
  · -- a = c
    subst h
    rw [if_neg, if_pos (Or.inl ⟨rfl, rfl⟩)]
    rintro (h | h)
    · exact hne b a (fun hh => hab hh.symm) h
    · exact hne b d hne3 h
  · -- a = d
    subst h
    rw [if_neg, if_pos (Or.inr ⟨rfl, rfl⟩)]
    rintro (h | h)
    · exact hne b c hne2 h
    · exact hne b a (fun hh => hab hh.symm) h
  · -- b = c
    subst h
    rw [if_pos (Or.inl ⟨rfl, rfl⟩)]
  · -- b = d
    subst h
    rw [if_pos (Or.inr ⟨rfl, rfl⟩)]

/-- C5 (amended): for every positive epsilon, (1) two non-degenerate
segments sharing exactly one endpoint classify as `touchEnd`, provided
that when all four side tests vanish the intersection of their bounding
boxes is a single point (i.e. the segments do not overlap collinearly in
more than one point); (2) two segments whose envelopes interact and whose
side tests have strictly opposite signs in both directions classify as
`cross`; (3) two identical non-degenerate collinear segments classify as
`overlap`. -/
theorem c5_amended (eps : ℚ) (heps : 0 < eps) :
    (∀ a b c d : P2, a ≠ b → c ≠ d → oneSharedEndpoint a b c d →
      ((seg2d_side eps a b c = 0 ∧ seg2d_side eps a b d = 0 ∧
        seg2d_side eps c d a = 0 ∧ seg2d_side eps c d b = 0) →
        parsegBoxPoint a b c d) →
      (seg2d_intersection eps a b c d).1 = SegInter.touchEnd) ∧
    (∀ a b c d : P2, lw_seg_interact a b c d = true →
      seg2d_side eps a b c * seg2d_side eps a b d < 0 →
      seg2d_side eps c d a * seg2d_side eps c d b < 0 →
      (seg2d_intersection eps a b c d).1 = SegInter.cross) ∧
    (∀ a b : P2, a ≠ b → (seg2d_intersection eps a b a b).1 = SegInter.overlap) := by
  refine ⟨?_, ?_, ?_⟩
  · intro a b c d hab hcd hshare hdeg
    have hne : ∀ u v : P2, u ≠ v → ¬(u.x = v.x ∧ u.y = v.y) := fun u v huv h =>
      huv (P2.eq_iff.mpr h)
    have hint : lw_seg_interact a b c d = true := by
      rcases hshare with ⟨h, _⟩ | ⟨h, _⟩ | ⟨h, _⟩ | ⟨h, _⟩
      · exact lw_seg_interact_of_shared (u := a) (Or.inl rfl) (Or.inl h)
      · exact lw_seg_interact_of_shared (u := a) (Or.inl rfl) (Or.inr h)
      · exact lw_seg_interact_of_shared (u := b) (Or.inr rfl) (Or.inl h)
      · exact lw_seg_interact_of_shared (u := b) (Or.inr rfl) (Or.inr h)
    -- the shared endpoint makes one side test vanish in each direction
    have hpq : seg2d_side eps a b c = 0 ∨ seg2d_side eps a b d = 0 := by
      rcases hshare with ⟨h, _⟩ | ⟨h, _⟩ | ⟨h, _⟩ | ⟨h, _⟩
      · exact Or.inl (by rw [← h]; exact seg2d_side_fst heps a b)
      · exact Or.inr (by rw [← h]; exact seg2d_side_fst heps a b)
      · exact Or.inl (by rw [← h]; exact seg2d_side_snd heps a b)
      · exact Or.inr (by rw [← h]; exact seg2d_side_snd heps a b)
    have hqp : seg2d_side eps c d a = 0 ∨ seg2d_side eps c d b = 0 := by
      rcases hshare with ⟨h, _⟩ | ⟨h, _⟩ | ⟨h, _⟩ | ⟨h, _⟩
      · exact Or.inl (by rw [← h]; exact seg2d_side_fst heps a d)
      · exact Or.inl (by rw [← h]; exact seg2d_side_snd heps c a)
      · exact Or.inr (by rw [← h]; exact seg2d_side_fst heps b d)
      · exact Or.inr (by rw [← h]; exact seg2d_side_snd heps c b)
    simp only [seg2d_intersection]
    rw [hint]
    rw [if_neg (by simp)]
    rw [if_neg (by rintro (⟨h1', h2'⟩ | ⟨h1', h2'⟩) <;> rcases hpq with h | h <;> omega)]
    rw [if_neg (by rintro (⟨h1', h2'⟩ | ⟨h1', h2'⟩) <;> rcases hqp with h | h <;> omega)]
    by_cases hallz : seg2d_side eps a b c = 0 ∧ seg2d_side eps a b d = 0 ∧
      seg2d_side eps c d a = 0 ∧ seg2d_side eps c d b = 0
    · rw [if_pos hallz]
      exact parseg2d_touchEnd (hdeg hallz) hshare hab hcd
    · rw [if_neg hallz,
        if_pos (by rcases hpq with h | h; exacts [Or.inl h, Or.inr (Or.inl h)])]
      rcases hshare with ⟨h, hne1, hne2, hne3⟩ | ⟨h, hne1, hne2, hne3⟩ |
        ⟨h, hne1, hne2, hne3⟩ | ⟨h, hne1, hne2, hne3⟩
      · -- a = c
        subst h
        rw [if_neg, if_pos (Or.inl ⟨rfl, rfl⟩)]
        rintro (h | h)
        · exact hne b a (fun hh => hab hh.symm) h
        · exact hne b d hne3 h
      · -- a = d
        subst h
        rw [if_neg, if_pos (Or.inr ⟨rfl, rfl⟩)]
        rintro (h | h)
        · exact hne b c hne2 h
        · exact hne b a (fun hh => hab hh.symm) h
      · -- b = c
        subst h
        rw [if_pos (Or.inl ⟨rfl, rfl⟩)]
      · -- b = d
        subst h
        rw [if_pos (Or.inr ⟨rfl, rfl⟩)]
  · intro a b c d hint h1 h2
    have hpq1 : seg2d_side eps a b c ≠ 0 := by
      intro h; rw [h, zero_mul] at h1; exact lt_irrefl 0 h1
    have hpq2 : seg2d_side eps a b d ≠ 0 := by
      intro h; rw [h, mul_zero] at h1; exact lt_irrefl 0 h1
    have hqp1 : seg2d_side eps c d a ≠ 0 := by
      intro h; rw [h, zero_mul] at h2; exact lt_irrefl 0 h2
    have hqp2 : seg2d_side eps c d b ≠ 0 := by
      intro h; rw [h, mul_zero] at h2; exact lt_irrefl 0 h2
    simp only [seg2d_intersection]
    rw [hint]
    rw [if_neg (by simp)]
    rw [if_neg (by rintro (⟨ha', hb'⟩ | ⟨ha', hb'⟩) <;> nlinarith)]
    rw [if_neg (by rintro (⟨ha', hb'⟩ | ⟨ha', hb'⟩) <;> nlinarith)]
    have hz1 : ¬(seg2d_side eps a b c = 0 ∧ seg2d_side eps a b d = 0 ∧
        seg2d_side eps c d a = 0 ∧ seg2d_side eps c d b = 0) := by
      rintro ⟨h, _⟩
      exact hpq1 h
    have hz2 : ¬(seg2d_side eps a b c = 0 ∨ seg2d_side eps a b d = 0 ∨
        seg2d_side eps c d a = 0 ∨ seg2d_side eps c d b = 0) := by
      rintro (h | h | h | h)
      exacts [hpq1 h, hpq2 h, hqp1 h, hqp2 h]
    rw [if_neg hz1]
    rw [if_neg hz2]
  · intro a b hab
    have hint : lw_seg_interact a b a b = true :=
      lw_seg_interact_of_shared (u := a) (Or.inl rfl) (Or.inl rfl)
    have h1 : seg2d_side eps a b a = 0 := seg2d_side_fst heps a b
    have h2 : seg2d_side eps a b b = 0 := seg2d_side_snd heps a b
    have hxy : a.x ≠ b.x ∨ a.y ≠ b.y := by
      by_contra h
      push_neg at h
      exact hab (P2.eq_iff.mpr ⟨h.1, h.2⟩)
    simp only [seg2d_intersection]
    rw [hint]
    rw [if_neg (by simp)]
    rw [if_neg (by rintro (⟨ha', _⟩ | ⟨ha', _⟩) <;> rw [h1] at ha' <;> omega)]
    rw [if_neg (by rintro (⟨ha', _⟩ | ⟨ha', _⟩) <;> rw [h1] at ha' <;> omega)]
    rw [if_pos ⟨h1, h2, h1, h2⟩]
    simp only [parseg2d_intersection]
    rw [if_pos]
    rcases hxy with h | h
    · exact Or.inl (by simpa only [max_self, min_self] using min_lt_max.mpr h)
    · exact Or.inr (by simpa only [max_self, min_self] using min_lt_max.mpr h)

/-- Witness for `c5_amended` at concrete inputs: a perpendicular corner is
classified `touchEnd`, an X-crossing `cross`, identical segments `overlap`. -/
theorem c5_amended_witness :
    (seg2d_intersection (1/100000) ⟨0, 0⟩ ⟨1, 1⟩ ⟨1, 1⟩ ⟨0, 1⟩).1 = SegInter.touchEnd ∧
    (seg2d_intersection (1/100000) ⟨0, 0⟩ ⟨2, 2⟩ ⟨0, 2⟩ ⟨2, 0⟩).1 = SegInter.cross ∧
    (seg2d_intersection (1/100000) ⟨0, 0⟩ ⟨1, 0⟩ ⟨0, 0⟩ ⟨1, 0⟩).1 = SegInter.overlap := by
  obtain ⟨hte, hcr, hov⟩ := c5_amended (1/100000) (by norm_num)
  refine ⟨hte ⟨0, 0⟩ ⟨1, 1⟩ ⟨1, 1⟩ ⟨0, 1⟩ ?_ ?_ ?_ ?_,
    hcr ⟨0, 0⟩ ⟨2, 2⟩ ⟨0, 2⟩ ⟨2, 0⟩ ?_ ?_ ?_, hov ⟨0, 0⟩ ⟨1, 0⟩ ?_⟩
  · norm_num [P2.eq_iff]
  · norm_num [P2.eq_iff]
  · unfold oneSharedEndpoint
    norm_num [P2.eq_iff]
  · intro h
    norm_num [seg2d_side] at h
  · norm_num [lw_seg_interact]
  · norm_num [seg2d_side]
  · norm_num [seg2d_side]
  · norm_num [P2.eq_iff]

/-- C2 (code bug evaluation): on the step sequence with values A=(0,0) at
t=1, B=(1,1) at t=2, A=(0,0) at t=3, `tpointseq_make_simple` splits at
the third instant and closes the first fragment with a synthetic
duplicate of B, producing the fragment [A@1, B@2, B@3) whose value
multiset contains B twice — so `tpointseq_is_simple` reports the
returned fragment as NOT simple, contradicting the claim that every
fragment of make_simple satisfies is_simple. -/
theorem c2_code_bug_eval :
    (tpointseq_make_simple 1
        ⟨[⟨⟨0, 0, 0, false, 0, false⟩, 1⟩, ⟨⟨1, 1, 0, false, 0, false⟩, 2⟩,
          ⟨⟨0, 0, 0, false, 0, false⟩, 3⟩], true, true, .STEP⟩).length = 2 ∧
    (tpointseq_make_simple 1
        ⟨[⟨⟨0, 0, 0, false, 0, false⟩, 1⟩, ⟨⟨1, 1, 0, false, 0, false⟩, 2⟩,
          ⟨⟨0, 0, 0, false, 0, false⟩, 3⟩], true, true, .STEP⟩).headI.insts =
      [⟨⟨0, 0, 0, false, 0, false⟩, 1⟩, ⟨⟨1, 1, 0, false, 0, false⟩, 2⟩,
        ⟨⟨1, 1, 0, false, 0, false⟩, 3⟩] ∧
    tpointseq_is_simple 1
      (tpointseq_make_simple 1
        ⟨[⟨⟨0, 0, 0, false, 0, false⟩, 1⟩, ⟨⟨1, 1, 0, false, 0, false⟩, 2⟩,
          ⟨⟨0, 0, 0, false, 0, false⟩, 3⟩], true, true, .STEP⟩).headI = false := by
  refine ⟨?_, ?_, ?_⟩ <;> decide

/-- C9 counterexample: the 2-instant step sequence holding the same value
(0,0) at t=0 and t=1 is reported NOT simple by `tpointseq_is_simple`
(its value array has a duplicate), refuting the claim that every
2-instant step sequence is simple. -/
theorem c9_counterexample :
    tpointseq_is_simple 1
      ⟨[⟨⟨0, 0, 0, false, 0, false⟩, 0⟩, ⟨⟨0, 0, 0, false, 0, false⟩, 1⟩],
        true, true, .STEP⟩ = false := by
  decide

/-- The stationary-marking phase of the linear splitter does nothing on a
2-instant sequence. -/
theorem linearStatLoop_two (seq : TSequence) (b : Nat → Bool) (n : Nat) :
    linearStatLoop seq 2 2 1 b n = (b, n) := by
  by_cases hp : seq.pointN 0 = seq.pointN 1 <;>
    simp [linearStatLoop, hp]

/-- The window loop of the linear splitter exits immediately when the
window start is not below count - 2. -/
theorem linearSplitLoop_exit (eps : ℚ) (seq : TSequence) (cnt fuel start i j e : Nat)
    (b : Nat → Bool) (n : Nat) (h : ¬ start < cnt - 2) :
    linearSplitLoop eps seq cnt (fuel + 1) false start e i j b n = (b, n) := by
  simp [linearSplitLoop, h]

/-- C9 (amended): every 1-instant sequence is simple; every 2-instant
linear sequence is simple; a 2-instant step sequence is simple provided
its two values differ (with equal values `is_simple` reports false); and
`make_simple` returns every such special-case sequence as a single
copied fragment. -/
theorem c9_amended (eps : ℚ) :
    (∀ seq : TSequence, seq.count = 1 → tpointseq_is_simple eps seq = true) ∧
    (∀ seq : TSequence, seq.interp = interpType.LINEAR → seq.count = 2 →
      tpointseq_is_simple eps seq = true) ∧
    (∀ (seq : TSequence) (i0 i1 : TInstant), seq.interp = interpType.STEP →
      seq.insts = [i0, i1] → i0.value ≠ i1.value →
      tpointseq_is_simple eps seq = true) ∧
    (∀ seq : TSequence,
      ((seq.interp = interpType.DISCRETE ∧ seq.count = 1) ∨
        (seq.interp ≠ interpType.DISCRETE ∧ seq.count ≤ 2)) →
      tpointseq_make_simple eps seq = [seq]) := by
  refine ⟨?_, ?_, ?_, ?_⟩
  · intro seq h
    simp [tpointseq_is_simple, h]
  · intro seq hl hc
    have h2 : (tpointseq_linear_find_splits eps seq).2 = 0 := by
      unfold tpointseq_linear_find_splits
      rw [hc]
      show (linearSplitLoop eps seq 2 ((2 + 2) * (2 + 2) * (2 + 2)) false 0 0 0 0
        (linearStatLoop seq 2 2 1 (fun _ => false) 0).1
        (linearStatLoop seq 2 2 1 (fun _ => false) 0).2).2 = 0
      rw [linearStatLoop_two]
      rw [show ((2 + 2) * (2 + 2) * (2 + 2) : Nat) = 63 + 1 by norm_num]
      rw [linearSplitLoop_exit eps seq 2 63 0 0 0 0 _ 0 (by norm_num)]
    simp [tpointseq_is_simple, hl, hc, h2]
  · intro seq i0 i1 hs hinsts hne
    have hc : seq.count = 2 := by simp [TSequence.count, hinsts]
    have hsort : tpointseq_discstep_is_simple seq = true := by
      unfold tpointseq_discstep_is_simple
      rw [hinsts]
      by_cases hle : i0.value.leB i1.value <;>
        simp [sortPoints, insertSortedPoint, hasAdjDup, hle, hne, Ne.symm hne]
    simp [tpointseq_is_simple, hc, hs, hsort]
  · intro seq h
    simp only [tpointseq_make_simple]
    rw [if_pos h]

/-- Witness for `c9_amended` at concrete sequences. -/
theorem c9_amended_witness :
    tpointseq_is_simple 1
      ⟨[⟨⟨0, 0, 0, false, 0, false⟩, 0⟩], true, true, .DISCRETE⟩ = true ∧
    tpointseq_is_simple 1
      ⟨[⟨⟨0, 0, 0, false, 0, false⟩, 0⟩, ⟨⟨1, 0, 0, false, 0, false⟩, 1⟩],
        true, true, .LINEAR⟩ = true ∧
    tpointseq_is_simple 1
      ⟨[⟨⟨0, 0, 0, false, 0, false⟩, 0⟩, ⟨⟨1, 0, 0, false, 0, false⟩, 1⟩],
        true, false, .STEP⟩ = true ∧
    tpointseq_make_simple 1
      ⟨[⟨⟨0, 0, 0, false, 0, false⟩, 0⟩, ⟨⟨1, 0, 0, false, 0, false⟩, 1⟩],
        true, true, .LINEAR⟩ =
      [⟨[⟨⟨0, 0, 0, false, 0, false⟩, 0⟩, ⟨⟨1, 0, 0, false, 0, false⟩, 1⟩],
        true, true, .LINEAR⟩] := by
  obtain ⟨h1, h2, h3, h4⟩ := c9_amended 1
  refine ⟨h1 _ (by decide), h2 _ (by decide) (by decide),
    h3 _ ⟨⟨0, 0, 0, false, 0, false⟩, 0⟩ ⟨⟨1, 0, 0, false, 0, false⟩, 1⟩
      (by decide) (by decide) (by decide),
    h4 _ (Or.inr ⟨by decide, by decide⟩)⟩

/-! ### Termination of the clipping loop -/

theorem bool_toNat_le {a b : Bool} (h : a = true → b = true) : a.toNat ≤ b.toNat := by
  cases a <;> cases b <;> simp_all

/-- Strict decrease of the popcount measure: a bitwise-smaller code that
misses a bit present in the larger code has strictly smaller popcount. -/
theorem RegionCode.popcount_lt {c d : RegionCode}
    (hl : c.left = true → d.left = true) (hr : c.right = true → d.right = true)
    (hb : c.bottom = true → d.bottom = true) (ht : c.top = true → d.top = true)
    (hf : c.front = true → d.front = true) (hk : c.back = true → d.back = true)
    (hstrict : (c.left = false ∧ d.left = true) ∨ (c.right = false ∧ d.right = true) ∨
      (c.bottom = false ∧ d.bottom = true) ∨ (c.top = false ∧ d.top = true) ∨
      (c.front = false ∧ d.front = true) ∨ (c.back = false ∧ d.back = true)) :
    c.popcount < d.popcount := by
  have h1 := bool_toNat_le hl
  have h2 := bool_toNat_le hr
  have h3 := bool_toNat_le hb
  have h4 := bool_toNat_le ht
  have h5 := bool_toNat_le hf
  have h6 := bool_toNat_le hk
  unfold RegionCode.popcount
  rcases hstrict with ⟨hc, hd⟩ | ⟨hc, hd⟩ | ⟨hc, hd⟩ | ⟨hc, hd⟩ | ⟨hc, hd⟩ | ⟨hc, hd⟩ <;>
    rw [hc, hd] at * <;> simp only [Bool.toNat_false, Bool.toNat_true] at * <;> omega

/-- A linearly interpolated ordinate at a parameter between the two
endpoint parameters lies between the two endpoint ordinates. -/
theorem interp_mem (x1 x2 m y1 y2 : ℚ) (h1 : min x1 x2 ≤ m) (h2 : m ≤ max x1 x2)
    (hne : x1 ≠ x2) :
    min y1 y2 ≤ y1 + (y2 - y1) * (m - x1) / (x2 - x1) ∧
    y1 + (y2 - y1) * (m - x1) / (x2 - x1) ≤ max y1 y2 := by
  set t := (m - x1) / (x2 - x1) with ht
  have hx : x2 - x1 ≠ 0 := sub_ne_zero.mpr (Ne.symm hne)
  have heq : y1 + (y2 - y1) * (m - x1) / (x2 - x1) = (1 - t) * y1 + t * y2 := by
    rw [ht]
    field_simp
    ring
  have ht01 : 0 ≤ t ∧ t ≤ 1 := by
    rcases lt_or_gt_of_ne hne with hlt | hlt
    · have hm1 : x1 ≤ m := by
        rw [min_eq_left hlt.le] at h1; exact h1
      have hm2 : m ≤ x2 := by
        rw [max_eq_right hlt.le] at h2; exact h2
      constructor
      · exact div_nonneg (by linarith) (by linarith)
      · rw [div_le_one (by linarith)]; linarith
    · have hm1 : x2 ≤ m := by
        rw [min_eq_right hlt.le] at h1; exact h1
      have hm2 : m ≤ x1 := by
        rw [max_eq_left hlt.le] at h2; exact h2
      have hrw : t = (x1 - m) / (x1 - x2) := by
        rw [ht, ← neg_div_neg_eq]
        ring_nf
      rw [hrw]
      constructor
      · exact div_nonneg (by linarith) (by linarith)
      · rw [div_le_one (by linarith)]; linarith

  rw [heq]
  have hmin1 : min y1 y2 ≤ y1 := min_le_left _ _
  have hmin2 : min y1 y2 ≤ y2 := min_le_right _ _
  have hmax1 : y1 ≤ max y1 y2 := le_max_left _ _
  have hmax2 : y2 ≤ max y1 y2 := le_max_right _ _
  constructor <;> nlinarith [ht01.1, ht01.2]

theorem RegionCode.orc_comm (c d : RegionCode) : c.orc d = d.orc c := by
  simp [RegionCode.orc, Bool.or_comm]

/-- The x-axis bits of a point whose x ordinate lies between two given
ordinates are covered by the union of the codes of the two points. -/
theorem xbits_sub (box : STBox) (hwx : box.xmin ≤ box.xmax) (hasz : Bool)
    (x1 y1 z1 x2 y2 z2 w wy wz : ℚ) (h1 : min x1 x2 ≤ w) (h2 : w ≤ max x1 x2) :
    ((computeCode w wy wz hasz box).left = true →
      ((computeCode x1 y1 z1 hasz box).left || (computeCode x2 y2 z2 hasz box).left) = true) ∧
    ((computeCode w wy wz hasz box).right = true →
      ((computeCode x1 y1 z1 hasz box).right || (computeCode x2 y2 z2 hasz box).right) = true) := by
  constructor
  · intro h
    simp only [computeCode, decide_eq_true_eq, Bool.or_eq_true] at h ⊢
    exact min_lt_iff.mp (lt_of_le_of_lt h1 h)
  · intro h
    simp only [computeCode, Bool.and_eq_true, Bool.not_eq_true', decide_eq_false_iff_not,
      decide_eq_true_eq, Bool.or_eq_true] at h ⊢
    have hmax : box.xmax < max x1 x2 := lt_of_lt_of_le h.2 h2
    rcases lt_max_iff.mp hmax with h3 | h3
    · exact Or.inl ⟨not_lt.mpr (le_of_lt (lt_of_le_of_lt hwx h3)), h3⟩
    · exact Or.inr ⟨not_lt.mpr (le_of_lt (lt_of_le_of_lt hwx h3)), h3⟩

/-- The y-axis bits of a point whose y ordinate lies between two given
ordinates are covered by the union of the codes of the two points. -/
theorem ybits_sub (box : STBox) (hwy : box.ymin ≤ box.ymax) (hasz : Bool)
    (x1 y1 z1 x2 y2 z2 wx w wz : ℚ) (h1 : min y1 y2 ≤ w) (h2 : w ≤ max y1 y2) :
    ((computeCode wx w wz hasz box).bottom = true →
      ((computeCode x1 y1 z1 hasz box).bottom || (computeCode x2 y2 z2 hasz box).bottom) = true) ∧
    ((computeCode wx w wz hasz box).top = true →
      ((computeCode x1 y1 z1 hasz box).top || (computeCode x2 y2 z2 hasz box).top) = true) := by
  constructor
  · intro h
    simp only [computeCode, decide_eq_true_eq, Bool.or_eq_true] at h ⊢
    exact min_lt_iff.mp (lt_of_le_of_lt h1 h)
  · intro h
    simp only [computeCode, Bool.and_eq_true, Bool.not_eq_true', decide_eq_false_iff_not,
      decide_eq_true_eq, Bool.or_eq_true] at h ⊢
    have hmax : box.ymax < max y1 y2 := lt_of_lt_of_le h.2 h2
    rcases lt_max_iff.mp hmax with h3 | h3
    · exact Or.inl ⟨not_lt.mpr (le_of_lt (lt_of_le_of_lt hwy h3)), h3⟩
    · exact Or.inr ⟨not_lt.mpr (le_of_lt (lt_of_le_of_lt hwy h3)), h3⟩

/-- The z-axis bits of a point whose z ordinate lies between two given
ordinates are covered by the union of the codes of the two points. -/
theorem zbits_sub (box : STBox) (hwz : box.zmin ≤ box.zmax) (hasz : Bool)
    (x1 y1 z1 x2 y2 z2 wx wy w : ℚ) (h1 : min z1 z2 ≤ w) (h2 : w ≤ max z1 z2) :
    ((computeCode wx wy w hasz box).front = true →
      ((computeCode x1 y1 z1 hasz box).front || (computeCode x2 y2 z2 hasz box).front) = true) ∧
    ((computeCode wx wy w hasz box).back = true →
      ((computeCode x1 y1 z1 hasz box).back || (computeCode x2 y2 z2 hasz box).back) = true) := by
  constructor
  · intro h
    simp only [computeCode, Bool.and_eq_true, decide_eq_true_eq, Bool.or_eq_true] at h ⊢
    rcases min_lt_iff.mp (lt_of_le_of_lt h1 h.2) with h3 | h3
    · exact Or.inl ⟨h.1, h3⟩
    · exact Or.inr ⟨h.1, h3⟩
  · intro h
    simp only [computeCode, Bool.and_eq_true, Bool.not_eq_true', decide_eq_false_iff_not,
      decide_eq_true_eq, Bool.or_eq_true] at h ⊢
    have hmax : box.zmax < max z1 z2 := lt_of_lt_of_le h.2 h2
    rcases lt_max_iff.mp hmax with h3 | h3
    · exact Or.inl ⟨⟨h.1.1, not_lt.mpr (le_of_lt (lt_of_le_of_lt hwz h3))⟩, h3⟩
    · exact Or.inr ⟨⟨h.1.1, not_lt.mpr (le_of_lt (lt_of_le_of_lt hwz h3))⟩, h3⟩

/-- Combining step for the termination measure: if each bit of the new
code of the clipped endpoint is covered by the union of the two old
codes, and the clipped face bit disappears from the union, the union
popcount strictly decreases. -/
theorem popcount_lt_step (cNew cOut cOther c1 c2 : RegionCode)
    (houts : (cOut = c1 ∧ cOther = c2) ∨ (cOut = c2 ∧ cOther = c1))
    (hsubL : cNew.left = true → (c1.left || c2.left) = true)
    (hsubR : cNew.right = true → (c1.right || c2.right) = true)
    (hsubB : cNew.bottom = true → (c1.bottom || c2.bottom) = true)
    (hsubT : cNew.top = true → (c1.top || c2.top) = true)
    (hsubF : cNew.front = true → (c1.front || c2.front) = true)
    (hsubK : cNew.back = true → (c1.back || c2.back) = true)
    (hface : (cNew.left = false ∧ cOther.left = false ∧ cOut.left = true) ∨
      (cNew.right = false ∧ cOther.right = false ∧ cOut.right = true) ∨
      (cNew.bottom = false ∧ cOther.bottom = false ∧ cOut.bottom = true) ∨
      (cNew.top = false ∧ cOther.top = false ∧ cOut.top = true) ∨
      (cNew.front = false ∧ cOther.front = false ∧ cOut.front = true) ∨
      (cNew.back = false ∧ cOther.back = false ∧ cOut.back = true)) :
    (cNew.orc cOther).popcount < (cOut.orc cOther).popcount := by
  have hUor : ∀ a b : Bool, (a || b) = true →
      ∀ u v : Bool, (u = a ∧ v = b) ∨ (u = b ∧ v = a) → (u || v) = true := by
    intro a b h u v huv
    rcases huv with ⟨h1, h2⟩ | ⟨h1, h2⟩ <;> subst h1 <;> subst h2
    · exact h
    · rw [Bool.or_comm]; exact h
  have houtsbits : ∀ X : RegionCode → Bool,
      (X cOut = X c1 ∧ X cOther = X c2) ∨ (X cOut = X c2 ∧ X cOther = X c1) := by
    intro X
    rcases houts with ⟨h1, h2⟩ | ⟨h1, h2⟩ <;> rw [h1, h2]
    · exact Or.inl ⟨rfl, rfl⟩
    · exact Or.inr ⟨rfl, rfl⟩
  apply RegionCode.popcount_lt
  · intro h
    rcases (Bool.or_eq_true _ _).mp h with h | h
    · exact hUor _ _ (hsubL h) _ _ (houtsbits (·.left))
    · show (cOut.left || cOther.left) = true
      simp [h]
  · intro h
    rcases (Bool.or_eq_true _ _).mp h with h | h
    · exact hUor _ _ (hsubR h) _ _ (houtsbits (·.right))
    · show (cOut.right || cOther.right) = true
      simp [h]
  · intro h
    rcases (Bool.or_eq_true _ _).mp h with h | h
    · exact hUor _ _ (hsubB h) _ _ (houtsbits (·.bottom))
    · show (cOut.bottom || cOther.bottom) = true
      simp [h]
  · intro h
    rcases (Bool.or_eq_true _ _).mp h with h | h
    · exact hUor _ _ (hsubT h) _ _ (houtsbits (·.top))
    · show (cOut.top || cOther.top) = true
      simp [h]
  · intro h
    rcases (Bool.or_eq_true _ _).mp h with h | h
    · exact hUor _ _ (hsubF h) _ _ (houtsbits (·.front))
    · show (cOut.front || cOther.front) = true
      simp [h]
  · intro h
    rcases (Bool.or_eq_true _ _).mp h with h | h
    · exact hUor _ _ (hsubK h) _ _ (houtsbits (·.back))
    · show (cOut.back || cOther.back) = true
      simp [h]
  · rcases hface with ⟨h1, h2, h3⟩ | ⟨h1, h2, h3⟩ | ⟨h1, h2, h3⟩ | ⟨h1, h2, h3⟩ |
      ⟨h1, h2, h3⟩ | ⟨h1, h2, h3⟩
    · exact Or.inl ⟨by simp [RegionCode.orc, h1, h2], by simp [RegionCode.orc, h3]⟩
    · exact Or.inr (Or.inl ⟨by simp [RegionCode.orc, h1, h2], by simp [RegionCode.orc, h3]⟩)
    · exact Or.inr (Or.inr (Or.inl ⟨by simp [RegionCode.orc, h1, h2],
        by simp [RegionCode.orc, h3]⟩))
    · exact Or.inr (Or.inr (Or.inr (Or.inl ⟨by simp [RegionCode.orc, h1, h2],
        by simp [RegionCode.orc, h3]⟩)))
    · exact Or.inr (Or.inr (Or.inr (Or.inr (Or.inl ⟨by simp [RegionCode.orc, h1, h2],
        by simp [RegionCode.orc, h3]⟩))))
    · exact Or.inr (Or.inr (Or.inr (Or.inr (Or.inr ⟨by simp [RegionCode.orc, h1, h2],
        by simp [RegionCode.orc, h3]⟩))))

/-- Core of the termination argument: one face clip strictly decreases
the popcount of the union of the two region codes. -/
theorem clip_core (box : STBox) (hasz : Bool)
    (hwx : box.xmin ≤ box.xmax) (hwy : box.ymin ≤ box.ymax) (hwz : box.zmin ≤ box.zmax)
    (s : ClipState) (cOut cOther : RegionCode)
    (houts : (cOut = csCode1 box hasz s ∧ cOther = csCode2 box hasz s) ∨
      (cOut = csCode2 box hasz s ∧ cOther = csCode1 box hasz s))
    (hnzOut : cOut.isZero = false)
    (hdisj : cOut.interAny cOther = false) :
    ((computeCode (clipPoint box hasz cOut s).1 (clipPoint box hasz cOut s).2.1
      (clipPoint box hasz cOut s).2.2 hasz box).orc cOther).popcount <
      (cOut.orc cOther).popcount := by
  have hdbits : (cOut.left = false ∨ cOther.left = false) ∧
      (cOut.right = false ∨ cOther.right = false) ∧
      (cOut.bottom = false ∨ cOther.bottom = false) ∧
      (cOut.top = false ∨ cOther.top = false) ∧
      (cOut.front = false ∨ cOther.front = false) ∧
      (cOut.back = false ∨ cOther.back = false) := by
    unfold RegionCode.interAny at hdisj
    simp only [Bool.or_eq_false_iff, Bool.and_eq_false_iff] at hdisj
    exact ⟨hdisj.1.1.1.1.1, hdisj.1.1.1.1.2, hdisj.1.1.1.2, hdisj.1.1.2, hdisj.1.2, hdisj.2⟩
  -- the other endpoint lacks every bit set in cOut
  have hOL : cOut.left = true → cOther.left = false := fun h => by
    rcases hdbits.1 with h' | h'
    · rw [h] at h'; exact absurd h' (by simp)
    · exact h'
  have hOR : cOut.right = true → cOther.right = false := fun h => by
    rcases hdbits.2.1 with h' | h'
    · rw [h] at h'; exact absurd h' (by simp)
    · exact h'
  have hOB : cOut.bottom = true → cOther.bottom = false := fun h => by
    rcases hdbits.2.2.1 with h' | h'
    · rw [h] at h'; exact absurd h' (by simp)
    · exact h'
  have hOT : cOut.top = true → cOther.top = false := fun h => by
    rcases hdbits.2.2.2.1 with h' | h'
    · rw [h] at h'; exact absurd h' (by simp)
    · exact h'
  have hOF : cOut.front = true → cOther.front = false := fun h => by
    rcases hdbits.2.2.2.2.1 with h' | h'
    · rw [h] at h'; exact absurd h' (by simp)
    · exact h'
  have hOK : cOut.back = true → cOther.back = false := fun h => by
    rcases hdbits.2.2.2.2.2 with h' | h'
    · rw [h] at h'; exact absurd h' (by simp)
    · exact h'
  -- endpoint-agnostic coordinate bounds derived from the selected face bit
  have hbL : cOut.left = true → min s.x1 s.x2 < box.xmin ∧ box.xmin ≤ max s.x1 s.x2 := by
    intro h
    have hof := hOL h
    rcases houts with ⟨h1, h2⟩ | ⟨h1, h2⟩
    · rw [h1] at h; rw [h2] at hof
      have hx1 : s.x1 < box.xmin := by
        simpa [csCode1, computeCode] using h
      have hx2 : ¬ s.x2 < box.xmin := by
        simpa [csCode2, computeCode] using hof
      exact ⟨lt_of_le_of_lt (min_le_left _ _) hx1,
        le_trans (not_lt.mp hx2) (le_max_right _ _)⟩
    · rw [h1] at h; rw [h2] at hof
      have hx1 : s.x2 < box.xmin := by
        simpa [csCode2, computeCode] using h
      have hx2 : ¬ s.x1 < box.xmin := by
        simpa [csCode1, computeCode] using hof
      exact ⟨lt_of_le_of_lt (min_le_right _ _) hx1,
        le_trans (not_lt.mp hx2) (le_max_left _ _)⟩
  have hbR : cOut.right = true → box.xmax < max s.x1 s.x2 ∧ min s.x1 s.x2 ≤ box.xmax := by
    intro h
    have hof := hOR h
    rcases houts with ⟨h1, h2⟩ | ⟨h1, h2⟩
    · rw [h1] at h; rw [h2] at hof
      have hx1 : ¬ s.x1 < box.xmin ∧ box.xmax < s.x1 := by
        simpa [csCode1, computeCode] using h
      have hx2 : box.xmin ≤ s.x2 → s.x2 ≤ box.xmax := by
        simpa [csCode2, computeCode, Bool.and_eq_false_iff] using hof
      refine ⟨lt_of_lt_of_le hx1.2 (le_max_left _ _), le_trans (min_le_right _ _) ?_⟩
      rcases lt_or_le s.x2 box.xmin with h' | h'
      · exact le_of_lt (lt_of_lt_of_le h' hwx)
      · exact hx2 h'
    · rw [h1] at h; rw [h2] at hof
      have hx1 : ¬ s.x2 < box.xmin ∧ box.xmax < s.x2 := by
        simpa [csCode2, computeCode] using h
      have hx2 : box.xmin ≤ s.x1 → s.x1 ≤ box.xmax := by
        simpa [csCode1, computeCode, Bool.and_eq_false_iff] using hof
      refine ⟨lt_of_lt_of_le hx1.2 (le_max_right _ _), le_trans (min_le_left _ _) ?_⟩
      rcases lt_or_le s.x1 box.xmin with h' | h'
      · exact le_of_lt (lt_of_lt_of_le h' hwx)
      · exact hx2 h'
  have hbB : cOut.bottom = true → min s.y1 s.y2 < box.ymin ∧ box.ymin ≤ max s.y1 s.y2 := by
    intro h
    have hof := hOB h
    rcases houts with ⟨h1, h2⟩ | ⟨h1, h2⟩
    · rw [h1] at h; rw [h2] at hof
      have hx1 : s.y1 < box.ymin := by
        simpa [csCode1, computeCode] using h
      have hx2 : ¬ s.y2 < box.ymin := by
        simpa [csCode2, computeCode] using hof
      exact ⟨lt_of_le_of_lt (min_le_left _ _) hx1,
        le_trans (not_lt.mp hx2) (le_max_right _ _)⟩
    · rw [h1] at h; rw [h2] at hof
      have hx1 : s.y2 < box.ymin := by
        simpa [csCode2, computeCode] using h
      have hx2 : ¬ s.y1 < box.ymin := by
        simpa [csCode1, computeCode] using hof
      exact ⟨lt_of_le_of_lt (min_le_right _ _) hx1,
        le_trans (not_lt.mp hx2) (le_max_left _ _)⟩
  have hbT : cOut.top = true → box.ymax < max s.y1 s.y2 ∧ min s.y1 s.y2 ≤ box.ymax := by
    intro h
    have hof := hOT h
    rcases houts with ⟨h1, h2⟩ | ⟨h1, h2⟩
    · rw [h1] at h; rw [h2] at hof
      have hx1 : ¬ s.y1 < box.ymin ∧ box.ymax < s.y1 := by
        simpa [csCode1, computeCode] using h
      have hx2 : box.ymin ≤ s.y2 → s.y2 ≤ box.ymax := by
        simpa [csCode2, computeCode, Bool.and_eq_false_iff] using hof
      refine ⟨lt_of_lt_of_le hx1.2 (le_max_left _ _), le_trans (min_le_right _ _) ?_⟩
      rcases lt_or_le s.y2 box.ymin with h' | h'
      · exact le_of_lt (lt_of_lt_of_le h' hwy)
      · exact hx2 h'
    · rw [h1] at h; rw [h2] at hof
      have hx1 : ¬ s.y2 < box.ymin ∧ box.ymax < s.y2 := by
        simpa [csCode2, computeCode] using h
      have hx2 : box.ymin ≤ s.y1 → s.y1 ≤ box.ymax := by
        simpa [csCode1, computeCode, Bool.and_eq_false_iff] using hof
      refine ⟨lt_of_lt_of_le hx1.2 (le_max_right _ _), le_trans (min_le_left _ _) ?_⟩
      rcases lt_or_le s.y1 box.ymin with h' | h'
      · exact le_of_lt (lt_of_lt_of_le h' hwy)
      · exact hx2 h'
  have hbF : cOut.front = true →
      hasz = true ∧ min s.z1 s.z2 < box.zmin ∧ box.zmin ≤ max s.z1 s.z2 := by
    intro h
    have hof := hOF h
    rcases houts with ⟨h1, h2⟩ | ⟨h1, h2⟩
    · rw [h1] at h; rw [h2] at hof
      have hx1 : hasz = true ∧ s.z1 < box.zmin := by
        simpa [csCode1, computeCode] using h
      have hx2 : hasz = true → box.zmin ≤ s.z2 := by
        simpa [csCode2, computeCode, Bool.and_eq_false_iff] using hof
      exact ⟨hx1.1, lt_of_le_of_lt (min_le_left _ _) hx1.2,
        le_trans (hx2 hx1.1) (le_max_right _ _)⟩
    · rw [h1] at h; rw [h2] at hof
      have hx1 : hasz = true ∧ s.z2 < box.zmin := by
        simpa [csCode2, computeCode] using h
      have hx2 : hasz = true → box.zmin ≤ s.z1 := by
        simpa [csCode1, computeCode, Bool.and_eq_false_iff] using hof
      exact ⟨hx1.1, lt_of_le_of_lt (min_le_right _ _) hx1.2,
        le_trans (hx2 hx1.1) (le_max_left _ _)⟩
  have hbK : cOut.back = true →
      hasz = true ∧ box.zmax < max s.z1 s.z2 ∧ min s.z1 s.z2 ≤ box.zmax := by
    intro h
    have hof := hOK h
    rcases houts with ⟨h1, h2⟩ | ⟨h1, h2⟩
    · rw [h1] at h; rw [h2] at hof
      have hx1 : (hasz = true ∧ ¬ s.z1 < box.zmin) ∧ box.zmax < s.z1 := by
        simpa [csCode1, computeCode] using h
      have hx2 : hasz = true → box.zmin ≤ s.z2 → s.z2 ≤ box.zmax := by
        simpa [csCode2, computeCode, Bool.and_eq_false_iff] using hof
      have hx2' : s.z2 ≤ box.zmax := by
        rcases lt_or_le s.z2 box.zmin with h' | h'
        · exact le_of_lt (lt_of_lt_of_le h' hwz)
        · exact hx2 hx1.1.1 h'
      exact ⟨hx1.1.1, lt_of_lt_of_le hx1.2 (le_max_left _ _),
        le_trans (min_le_right _ _) hx2'⟩
    · rw [h1] at h; rw [h2] at hof
      have hx1 : (hasz = true ∧ ¬ s.z2 < box.zmin) ∧ box.zmax < s.z2 := by
        simpa [csCode2, computeCode] using h
      have hx2 : hasz = true → box.zmin ≤ s.z1 → s.z1 ≤ box.zmax := by
        simpa [csCode1, computeCode, Bool.and_eq_false_iff] using hof
      have hx2' : s.z1 ≤ box.zmax := by
        rcases lt_or_le s.z1 box.zmin with h' | h'
        · exact le_of_lt (lt_of_lt_of_le h' hwz)
        · exact hx2 hx1.1.1 h'
      exact ⟨hx1.1.1, lt_of_lt_of_le hx1.2 (le_max_right _ _),
        le_trans (min_le_left _ _) hx2'⟩
  -- dispatch on the selected face following the priority chain of clipPoint
  rcases Bool.eq_false_or_eq_true cOut.left with hfl | hfl
  case inl => -- face LEFT
    have hp : clipPoint box hasz cOut s =
        (box.xmin,
         s.y1 + (s.y2 - s.y1) * (box.xmin - s.x1) / (s.x2 - s.x1),
         if hasz then s.z1 + (s.z2 - s.z1) * (box.xmin - s.x1) / (s.x2 - s.x1) else 0) := by
      unfold clipPoint
      rw [if_pos hfl]
    rw [hp]
    obtain ⟨hb1, hb2⟩ := hbL hfl
    have hne : s.x1 ≠ s.x2 := min_lt_max.mp (lt_of_lt_of_le hb1 hb2)
    have hwyb := interp_mem s.x1 s.x2 box.xmin s.y1 s.y2 hb1.le hb2 hne
    have hwzb := interp_mem s.x1 s.x2 box.xmin s.z1 s.z2 hb1.le hb2 hne
    apply popcount_lt_step _ _ _ (csCode1 box hasz s) (csCode2 box hasz s) houts
    · intro h
      exfalso
      simp [computeCode] at h
    · intro h
      exfalso
      simp [computeCode] at h
      exact absurd h (not_lt.mpr hwx)
    · exact fun h =>
        (ybits_sub box hwy hasz s.x1 s.y1 s.z1 s.x2 s.y2 s.z2 _ _ _ hwyb.1 hwyb.2).1 h
    · exact fun h =>
        (ybits_sub box hwy hasz s.x1 s.y1 s.z1 s.x2 s.y2 s.z2 _ _ _ hwyb.1 hwyb.2).2 h
    · intro h
      rcases Bool.eq_false_or_eq_true hasz with hz | hz
      · have hite : (if hasz = true then
            s.z1 + (s.z2 - s.z1) * (box.xmin - s.x1) / (s.x2 - s.x1) else 0) =
            s.z1 + (s.z2 - s.z1) * (box.xmin - s.x1) / (s.x2 - s.x1) := by
          rw [hz]
          simp
        rw [hite] at h
        exact (zbits_sub box hwz hasz s.x1 s.y1 s.z1 s.x2 s.y2 s.z2 _ _ _ hwzb.1 hwzb.2).1 h
      · exfalso
        rw [hz] at h
        simp [computeCode] at h
    · intro h
      rcases Bool.eq_false_or_eq_true hasz with hz | hz
      · have hite : (if hasz = true then
            s.z1 + (s.z2 - s.z1) * (box.xmin - s.x1) / (s.x2 - s.x1) else 0) =
            s.z1 + (s.z2 - s.z1) * (box.xmin - s.x1) / (s.x2 - s.x1) := by
          rw [hz]
          simp
        rw [hite] at h
        exact (zbits_sub box hwz hasz s.x1 s.y1 s.z1 s.x2 s.y2 s.z2 _ _ _ hwzb.1 hwzb.2).2 h
      · exfalso
        rw [hz] at h
        simp [computeCode] at h
    · refine Or.inl ⟨?_, hOL hfl, hfl⟩
      simp [computeCode]
  case inr =>
  rcases Bool.eq_false_or_eq_true cOut.right with hfr | hfr
  case inl => -- face RIGHT
    have hp : clipPoint box hasz cOut s =
        (box.xmax,
         s.y1 + (s.y2 - s.y1) * (box.xmax - s.x1) / (s.x2 - s.x1),
         if hasz then s.z1 + (s.z2 - s.z1) * (box.xmax - s.x1) / (s.x2 - s.x1) else 0) := by
      unfold clipPoint
      rw [if_neg (by simp [hfl]), if_pos hfr]
    rw [hp]
    obtain ⟨hb1, hb2⟩ := hbR hfr
    have hne : s.x1 ≠ s.x2 := min_lt_max.mp (lt_of_le_of_lt hb2 hb1)
    have hwyb := interp_mem s.x1 s.x2 box.xmax s.y1 s.y2 hb2 hb1.le hne
    have hwzb := interp_mem s.x1 s.x2 box.xmax s.z1 s.z2 hb2 hb1.le hne
    apply popcount_lt_step _ _ _ (csCode1 box hasz s) (csCode2 box hasz s) houts
    · intro h
      exfalso
      simp [computeCode] at h
      exact absurd h (not_lt.mpr hwx)
    · intro h
      exfalso
      simp [computeCode] at h
    · exact fun h =>
        (ybits_sub box hwy hasz s.x1 s.y1 s.z1 s.x2 s.y2 s.z2 _ _ _ hwyb.1 hwyb.2).1 h
    · exact fun h =>
        (ybits_sub box hwy hasz s.x1 s.y1 s.z1 s.x2 s.y2 s.z2 _ _ _ hwyb.1 hwyb.2).2 h
    · intro h
      rcases Bool.eq_false_or_eq_true hasz with hz | hz
      · have hite : (if hasz = true then
            s.z1 + (s.z2 - s.z1) * (box.xmax - s.x1) / (s.x2 - s.x1) else 0) =
            s.z1 + (s.z2 - s.z1) * (box.xmax - s.x1) / (s.x2 - s.x1) := by
          rw [hz]
          simp
        rw [hite] at h
        exact (zbits_sub box hwz hasz s.x1 s.y1 s.z1 s.x2 s.y2 s.z2 _ _ _ hwzb.1 hwzb.2).1 h
      · exfalso
        rw [hz] at h
        simp [computeCode] at h
    · intro h
      rcases Bool.eq_false_or_eq_true hasz with hz | hz
      · have hite : (if hasz = true then
            s.z1 + (s.z2 - s.z1) * (box.xmax - s.x1) / (s.x2 - s.x1) else 0) =
            s.z1 + (s.z2 - s.z1) * (box.xmax - s.x1) / (s.x2 - s.x1) := by
          rw [hz]
          simp
        rw [hite] at h
        exact (zbits_sub box hwz hasz s.x1 s.y1 s.z1 s.x2 s.y2 s.z2 _ _ _ hwzb.1 hwzb.2).2 h
      · exfalso
        rw [hz] at h
        simp [computeCode] at h
    · refine Or.inr (Or.inl ⟨?_, hOR hfr, hfr⟩)
      simp [computeCode]
  case inr =>
  rcases Bool.eq_false_or_eq_true cOut.bottom with hfb | hfb
  case inl => -- face BOTTOM
    have hp : clipPoint box hasz cOut s =
        (s.x1 + (s.x2 - s.x1) * (box.ymin - s.y1) / (s.y2 - s.y1),
         box.ymin,
         if hasz then s.z1 + (s.z2 - s.z1) * (box.ymin - s.y1) / (s.y2 - s.y1) else 0) := by
      unfold clipPoint
      rw [if_neg (by simp [hfl]), if_neg (by simp [hfr]), if_pos hfb]
    rw [hp]
    obtain ⟨hb1, hb2⟩ := hbB hfb
    have hne : s.y1 ≠ s.y2 := min_lt_max.mp (lt_of_lt_of_le hb1 hb2)
    have hwxb := interp_mem s.y1 s.y2 box.ymin s.x1 s.x2 hb1.le hb2 hne
    have hwzb := interp_mem s.y1 s.y2 box.ymin s.z1 s.z2 hb1.le hb2 hne
    apply popcount_lt_step _ _ _ (csCode1 box hasz s) (csCode2 box hasz s) houts
    · exact fun h =>
        (xbits_sub box hwx hasz s.x1 s.y1 s.z1 s.x2 s.y2 s.z2 _ _ _ hwxb.1 hwxb.2).1 h
    · exact fun h =>
        (xbits_sub box hwx hasz s.x1 s.y1 s.z1 s.x2 s.y2 s.z2 _ _ _ hwxb.1 hwxb.2).2 h
    · intro h
      exfalso
      simp [computeCode] at h
    · intro h
      exfalso
      simp [computeCode] at h
      exact absurd h (not_lt.mpr hwy)
    · intro h
      rcases Bool.eq_false_or_eq_true hasz with hz | hz
      · have hite : (if hasz = true then
            s.z1 + (s.z2 - s.z1) * (box.ymin - s.y1) / (s.y2 - s.y1) else 0) =
            s.z1 + (s.z2 - s.z1) * (box.ymin - s.y1) / (s.y2 - s.y1) := by
          rw [hz]
          simp
        rw [hite] at h
        exact (zbits_sub box hwz hasz s.x1 s.y1 s.z1 s.x2 s.y2 s.z2 _ _ _ hwzb.1 hwzb.2).1 h
      · exfalso
        rw [hz] at h
        simp [computeCode] at h
    · intro h
      rcases Bool.eq_false_or_eq_true hasz with hz | hz
      · have hite : (if hasz = true then
            s.z1 + (s.z2 - s.z1) * (box.ymin - s.y1) / (s.y2 - s.y1) else 0) =
            s.z1 + (s.z2 - s.z1) * (box.ymin - s.y1) / (s.y2 - s.y1) := by
          rw [hz]
          simp
        rw [hite] at h
        exact (zbits_sub box hwz hasz s.x1 s.y1 s.z1 s.x2 s.y2 s.z2 _ _ _ hwzb.1 hwzb.2).2 h
      · exfalso
        rw [hz] at h
        simp [computeCode] at h
    · refine Or.inr (Or.inr (Or.inl ⟨?_, hOB hfb, hfb⟩))
      simp [computeCode]
  case inr =>
  rcases Bool.eq_false_or_eq_true cOut.top with hft | hft
  case inl => -- face TOP
    have hp : clipPoint box hasz cOut s =
        (s.x1 + (s.x2 - s.x1) * (box.ymax - s.y1) / (s.y2 - s.y1),
         box.ymax,
         if hasz then s.z1 + (s.z2 - s.z1) * (box.ymax - s.y1) / (s.y2 - s.y1) else 0) := by
      unfold clipPoint
      rw [if_neg (by simp [hfl]), if_neg (by simp [hfr]), if_neg (by simp [hfb]),
        if_pos hft]
    rw [hp]
    obtain ⟨hb1, hb2⟩ := hbT hft
    have hne : s.y1 ≠ s.y2 := min_lt_max.mp (lt_of_le_of_lt hb2 hb1)
    have hwxb := interp_mem s.y1 s.y2 box.ymax s.x1 s.x2 hb2 hb1.le hne
    have hwzb := interp_mem s.y1 s.y2 box.ymax s.z1 s.z2 hb2 hb1.le hne
    apply popcount_lt_step _ _ _ (csCode1 box hasz s) (csCode2 box hasz s) houts
    · exact fun h =>
        (xbits_sub box hwx hasz s.x1 s.y1 s.z1 s.x2 s.y2 s.z2 _ _ _ hwxb.1 hwxb.2).1 h
    · exact fun h =>
        (xbits_sub box hwx hasz s.x1 s.y1 s.z1 s.x2 s.y2 s.z2 _ _ _ hwxb.1 hwxb.2).2 h
    · intro h
      exfalso
      simp [computeCode] at h
      exact absurd h (not_lt.mpr hwy)
    · intro h
      exfalso
      simp [computeCode] at h
    · intro h
      rcases Bool.eq_false_or_eq_true hasz with hz | hz
      · have hite : (if hasz = true then
            s.z1 + (s.z2 - s.z1) * (box.ymax - s.y1) / (s.y2 - s.y1) else 0) =
            s.z1 + (s.z2 - s.z1) * (box.ymax - s.y1) / (s.y2 - s.y1) := by
          rw [hz]
          simp
        rw [hite] at h
        exact (zbits_sub box hwz hasz s.x1 s.y1 s.z1 s.x2 s.y2 s.z2 _ _ _ hwzb.1 hwzb.2).1 h
      · exfalso
        rw [hz] at h
        simp [computeCode] at h
    · intro h
      rcases Bool.eq_false_or_eq_true hasz with hz | hz
      · have hite : (if hasz = true then
            s.z1 + (s.z2 - s.z1) * (box.ymax - s.y1) / (s.y2 - s.y1) else 0) =
            s.z1 + (s.z2 - s.z1) * (box.ymax - s.y1) / (s.y2 - s.y1) := by
          rw [hz]
          simp
        rw [hite] at h
        exact (zbits_sub box hwz hasz s.x1 s.y1 s.z1 s.x2 s.y2 s.z2 _ _ _ hwzb.1 hwzb.2).2 h
      · exfalso
        rw [hz] at h
        simp [computeCode] at h
    · refine Or.inr (Or.inr (Or.inr (Or.inl ⟨?_, hOT hft, hft⟩)))
      simp [computeCode]
  case inr =>
  rcases Bool.eq_false_or_eq_true (hasz && cOut.front) with hffr | hffr
  case inl => -- face FRONT
    obtain ⟨hz, hfro⟩ := (Bool.and_eq_true _ _).mp hffr
    have hp : clipPoint box hasz cOut s =
        (s.x1 + (s.x2 - s.x1) * (box.zmin - s.z1) / (s.z2 - s.z1),
         s.y1 + (s.y2 - s.y1) * (box.zmin - s.z1) / (s.z2 - s.z1),
         box.zmin) := by
      unfold clipPoint
      rw [if_neg (by simp [hfl]), if_neg (by simp [hfr]), if_neg (by simp [hfb]),
        if_neg (by simp [hft]), if_pos hffr]
    rw [hp]
    obtain ⟨hzT, hb1, hb2⟩ := hbF hfro
    have hne : s.z1 ≠ s.z2 := min_lt_max.mp (lt_of_lt_of_le hb1 hb2)
    have hwxb := interp_mem s.z1 s.z2 box.zmin s.x1 s.x2 hb1.le hb2 hne
    have hwyb := interp_mem s.z1 s.z2 box.zmin s.y1 s.y2 hb1.le hb2 hne
    apply popcount_lt_step _ _ _ (csCode1 box hasz s) (csCode2 box hasz s) houts
    · exact fun h =>
        (xbits_sub box hwx hasz s.x1 s.y1 s.z1 s.x2 s.y2 s.z2 _ _ _ hwxb.1 hwxb.2).1 h
    · exact fun h =>
        (xbits_sub box hwx hasz s.x1 s.y1 s.z1 s.x2 s.y2 s.z2 _ _ _ hwxb.1 hwxb.2).2 h
    · exact fun h =>
        (ybits_sub box hwy hasz s.x1 s.y1 s.z1 s.x2 s.y2 s.z2 _ _ _ hwyb.1 hwyb.2).1 h
    · exact fun h =>
        (ybits_sub box hwy hasz s.x1 s.y1 s.z1 s.x2 s.y2 s.z2 _ _ _ hwyb.1 hwyb.2).2 h
    · intro h
      exfalso
      simp [computeCode] at h
    · intro h
      exfalso
      simp [computeCode] at h
      exact absurd h.2 (not_lt.mpr hwz)
    · refine Or.inr (Or.inr (Or.inr (Or.inr (Or.inl ⟨?_, hOF hfro, hfro⟩))))
      simp [computeCode]
  case inr =>
  rcases Bool.eq_false_or_eq_true (hasz && cOut.back) with hfbk | hfbk
  case inl => -- face BACK
    obtain ⟨hz, hbko⟩ := (Bool.and_eq_true _ _).mp hfbk
    have hp : clipPoint box hasz cOut s =
        (s.x1 + (s.x2 - s.x1) * (box.zmax - s.z1) / (s.z2 - s.z1),
         s.y1 + (s.y2 - s.y1) * (box.zmax - s.z1) / (s.z2 - s.z1),
         box.zmax) := by
      unfold clipPoint
      rw [if_neg (by simp [hfl]), if_neg (by simp [hfr]), if_neg (by simp [hfb]),
        if_neg (by simp [hft]), if_neg (by simp [hffr]), if_pos hfbk]
    rw [hp]
    obtain ⟨hzT, hb1, hb2⟩ := hbK hbko
    have hne : s.z1 ≠ s.z2 := min_lt_max.mp (lt_of_le_of_lt hb2 hb1)
    have hwxb := interp_mem s.z1 s.z2 box.zmax s.x1 s.x2 hb2 hb1.le hne
    have hwyb := interp_mem s.z1 s.z2 box.zmax s.y1 s.y2 hb2 hb1.le hne
    apply popcount_lt_step _ _ _ (csCode1 box hasz s) (csCode2 box hasz s) houts
    · exact fun h =>
        (xbits_sub box hwx hasz s.x1 s.y1 s.z1 s.x2 s.y2 s.z2 _ _ _ hwxb.1 hwxb.2).1 h
    · exact fun h =>
        (xbits_sub box hwx hasz s.x1 s.y1 s.z1 s.x2 s.y2 s.z2 _ _ _ hwxb.1 hwxb.2).2 h
    · exact fun h =>
        (ybits_sub box hwy hasz s.x1 s.y1 s.z1 s.x2 s.y2 s.z2 _ _ _ hwyb.1 hwyb.2).1 h
    · exact fun h =>
        (ybits_sub box hwy hasz s.x1 s.y1 s.z1 s.x2 s.y2 s.z2 _ _ _ hwyb.1 hwyb.2).2 h
    · intro h
      exfalso
      simp [computeCode] at h
      exact absurd h.2 (not_lt.mpr hwz)
    · intro h
      exfalso
      simp [computeCode] at h
    · refine Or.inr (Or.inr (Or.inr (Or.inr (Or.inr ⟨?_, hOK hbko, hbko⟩))))
      simp [computeCode]
  case inr =>
    -- no face selectable: contradicts the nonzero outside code
    exfalso
    have hfo : cOut.front = false ∧ cOut.back = false := by
      rcases Bool.eq_false_or_eq_true hasz with hz | hz
      · exact ⟨by simpa [hz] using hffr, by simpa [hz] using hfbk⟩
      · rcases houts with ⟨h1, _⟩ | ⟨h1, _⟩ <;> rw [h1] <;>
          exact ⟨by simp [csCode1, csCode2, computeCode, hz],
            by simp [csCode1, csCode2, computeCode, hz]⟩
    have hzero : cOut.isZero = true := by
      unfold RegionCode.isZero
      rw [hfl, hfr, hfb, hft, hfo.1, hfo.2]
      rfl
    rw [hzero] at hnzOut
    exact absurd hnzOut (by simp)

/-- The bits of a zero region code are all false. -/
theorem isZero_bits {c : RegionCode} (h : c.isZero = true) :
    c.left = false ∧ c.right = false ∧ c.bottom = false ∧ c.top = false ∧
    c.front = false ∧ c.back = false := by
  unfold RegionCode.isZero at h
  simp only [Bool.not_eq_true', Bool.or_eq_false_iff] at h
  exact ⟨h.1.1.1.1.1, h.1.1.1.1.2, h.1.1.1.2, h.1.1.2, h.1.2, h.2⟩

/-- In 2D mode the region code does not depend on the z ordinate. -/
theorem computeCode_z_eq (x y z z' : ℚ) (hasz : Bool) (box : STBox)
    (h : hasz = true → z = z') :
    computeCode x y z hasz box = computeCode x y z' hasz box := by
  rcases Bool.eq_false_or_eq_true hasz with hz | hz
  · rw [h hz]
  · simp [computeCode, hz]

/-- The outside code selected by the loop is nonzero whenever the union
of the two codes is nonzero. -/
theorem csCodeOut_nonzero (box : STBox) (hasz : Bool) (s : ClipState)
    (hnz : ((csCode1 box hasz s).orc (csCode2 box hasz s)).isZero = false) :
    (csCodeOut box hasz s).isZero = false := by
  unfold csCodeOut
  by_cases h1 : (csCode1 box hasz s).isZero = false
  · rw [if_pos h1]; exact h1
  · rw [if_neg h1]
    have h1' : (csCode1 box hasz s).isZero = true := by
      simpa using h1
    rcases Bool.eq_false_or_eq_true ((csCode2 box hasz s).isZero) with h2 | h2
    · exfalso
      obtain ⟨a1, a2, a3, a4, a5, a6⟩ := isZero_bits h1'
      obtain ⟨b1, b2, b3, b4, b5, b6⟩ := isZero_bits h2
      rw [show ((csCode1 box hasz s).orc (csCode2 box hasz s)).isZero = true by
        simp [RegionCode.orc, RegionCode.isZero, a1, a2, a3, a4, a5, a6,
          b1, b2, b3, b4, b5, b6]] at hnz
      exact absurd hnz (by simp)
    · exact h2

theorem RegionCode.interAny_comm (c d : RegionCode) : c.interAny d = d.interAny c := by
  unfold RegionCode.interAny
  simp [Bool.and_comm]

/-- Codes of the state after a clip of the first endpoint. -/
theorem clipOnce_codes_fst (box : STBox) (hasz : Bool) (s : ClipState)
    (hc : csCodeOut box hasz s = csCode1 box hasz s) :
    csCode1 box hasz (clipOnce box hasz s) =
      computeCode (clipPoint box hasz (csCodeOut box hasz s) s).1
        (clipPoint box hasz (csCodeOut box hasz s) s).2.1
        (clipPoint box hasz (csCodeOut box hasz s) s).2.2 hasz box ∧
    csCode2 box hasz (clipOnce box hasz s) = csCode2 box hasz s := by
  constructor
  · simp only [clipOnce]
    rw [if_pos hc]
    exact computeCode_z_eq _ _ _ _ hasz box (fun hz => by rw [if_pos hz])
  · simp only [clipOnce]
    rw [if_pos hc]
    rfl

/-- Codes of the state after a clip of the second endpoint. -/
theorem clipOnce_codes_snd (box : STBox) (hasz : Bool) (s : ClipState)
    (hc : ¬ csCodeOut box hasz s = csCode1 box hasz s) :
    csCode2 box hasz (clipOnce box hasz s) =
      computeCode (clipPoint box hasz (csCodeOut box hasz s) s).1
        (clipPoint box hasz (csCodeOut box hasz s) s).2.1
        (clipPoint box hasz (csCodeOut box hasz s) s).2.2 hasz box ∧
    csCode1 box hasz (clipOnce box hasz s) = csCode1 box hasz s := by
  constructor
  · simp only [clipOnce]
    rw [if_neg hc]
    exact computeCode_z_eq _ _ _ _ hasz box (fun hz => by rw [if_pos hz])
  · simp only [clipOnce]
    rw [if_neg hc]
    rfl

/-- One clipping iteration strictly decreases the popcount of the union
of the two region codes. -/
theorem clipOnce_decrease (box : STBox) (hasz : Bool)
    (hwx : box.xmin ≤ box.xmax) (hwy : box.ymin ≤ box.ymax) (hwz : box.zmin ≤ box.zmax)
    (s : ClipState)
    (hnz : ((csCode1 box hasz s).orc (csCode2 box hasz s)).isZero = false)
    (hdisj : (csCode1 box hasz s).interAny (csCode2 box hasz s) = false) :
    ((csCode1 box hasz (clipOnce box hasz s)).orc
      (csCode2 box hasz (clipOnce box hasz s))).popcount <
    ((csCode1 box hasz s).orc (csCode2 box hasz s)).popcount := by
  have hnzOut := csCodeOut_nonzero box hasz s hnz
  by_cases hc : csCodeOut box hasz s = csCode1 box hasz s
  · obtain ⟨e1, e2⟩ := clipOnce_codes_fst box hasz s hc
    rw [e1, e2]
    have hcore := clip_core box hasz hwx hwy hwz s (csCodeOut box hasz s)
      (csCode2 box hasz s) (Or.inl ⟨hc, rfl⟩) hnzOut (by rw [hc]; exact hdisj)
    calc ((computeCode (clipPoint box hasz (csCodeOut box hasz s) s).1
          (clipPoint box hasz (csCodeOut box hasz s) s).2.1
          (clipPoint box hasz (csCodeOut box hasz s) s).2.2 hasz box).orc
            (csCode2 box hasz s)).popcount
        < ((csCodeOut box hasz s).orc (csCode2 box hasz s)).popcount := hcore
      _ = ((csCode1 box hasz s).orc (csCode2 box hasz s)).popcount := by rw [hc]
  · obtain ⟨e2, e1⟩ := clipOnce_codes_snd box hasz s hc
    rw [e1, e2]
    have hc2 : csCodeOut box hasz s = csCode2 box hasz s := by
      unfold csCodeOut at hc ⊢
      by_cases h1 : (csCode1 box hasz s).isZero = false
      · exact absurd (if_pos h1) hc
      · rw [if_neg h1]
    have hcore := clip_core box hasz hwx hwy hwz s (csCodeOut box hasz s)
      (csCode1 box hasz s) (Or.inr ⟨hc2, rfl⟩) hnzOut
      (by rw [hc2, RegionCode.interAny_comm]; exact hdisj)
    calc ((csCode1 box hasz s).orc
          (computeCode (clipPoint box hasz (csCodeOut box hasz s) s).1
            (clipPoint box hasz (csCodeOut box hasz s) s).2.1
            (clipPoint box hasz (csCodeOut box hasz s) s).2.2 hasz box)).popcount
        = ((computeCode (clipPoint box hasz (csCodeOut box hasz s) s).1
            (clipPoint box hasz (csCodeOut box hasz s) s).2.1
            (clipPoint box hasz (csCodeOut box hasz s) s).2.2 hasz box).orc
              (csCode1 box hasz s)).popcount := by rw [RegionCode.orc_comm]
      _ < ((csCodeOut box hasz s).orc (csCode1 box hasz s)).popcount := hcore
      _ = ((csCode2 box hasz s).orc (csCode1 box hasz s)).popcount := by rw [hc2]
      _ = ((csCode1 box hasz s).orc (csCode2 box hasz s)).popcount := by
          rw [RegionCode.orc_comm]

/-- The popcount of a region code is at most 6. -/
theorem popcount_le_six (c : RegionCode) : c.popcount ≤ 6 := by
  unfold RegionCode.popcount
  have h1 := Bool.toNat_lt c.left
  have h2 := Bool.toNat_lt c.right
  have h3 := Bool.toNat_lt c.bottom
  have h4 := Bool.toNat_lt c.top
  have h5 := Bool.toNat_lt c.front
  have h6 := Bool.toNat_lt c.back
  omega

/-- With fuel exceeding the union popcount, the clipping loop always
returns an accept/reject decision. -/
theorem csLoop_isSome (box : STBox) (hasz : Bool)
    (hwx : box.xmin ≤ box.xmax) (hwy : box.ymin ≤ box.ymax) (hwz : box.zmin ≤ box.zmax) :
    ∀ (fuel : Nat) (s : ClipState),
      ((csCode1 box hasz s).orc (csCode2 box hasz s)).popcount < fuel →
      (csLoop box hasz fuel s).isSome = true := by
  intro fuel
  induction fuel with
  | zero => intro s h; omega
  | succ n ih =>
    intro s h
    by_cases h1 : ((csCode1 box hasz s).orc (csCode2 box hasz s)).isZero = true
    · simp [csLoop, h1]
    · by_cases h2 : (csCode1 box hasz s).interAny (csCode2 box hasz s) = true
      · simp [csLoop, h1, h2]
      · have h1' : ((csCode1 box hasz s).orc (csCode2 box hasz s)).isZero = false := by
          simpa using h1
        have h2' : (csCode1 box hasz s).interAny (csCode2 box hasz s) = false := by
          simpa using h2
        have hdec := clipOnce_decrease box hasz hwx hwy hwz s h1' h2'
        have hrec := ih (clipOnce box hasz s) (by omega)
        simp only [csLoop, h1, h2, if_false]
        simpa using hrec

/-- C10: for every pair of input segment endpoints and every box, the
Cohen–Sutherland clipping loop (run with the fuel used by
`cohenSutherlandClip`) terminates with an accept or reject decision:
the fuel of 8 is never exhausted, because each iteration strictly
decreases the number of set bits in the union of the two region codes,
which starts at most 6. -/
theorem c10_clip_terminates (p1 p2 : GPoint) (box : STBox) (hasz : Bool)
    (hwx : box.xmin ≤ box.xmax) (hwy : box.ymin ≤ box.ymax)
    (hwz : box.zmin ≤ box.zmax) :
    (csLoop box hasz 8
      ⟨p1.x, p1.y, if hasz then p1.z else 0,
       p2.x, p2.y, if hasz then p2.z else 0⟩).isSome = true := by
  apply csLoop_isSome box hasz hwx hwy hwz
  have hle1 := popcount_le_six (csCode1 box hasz
    ⟨p1.x, p1.y, if hasz then p1.z else 0, p2.x, p2.y, if hasz then p2.z else 0⟩)
  have hle : ∀ c d : RegionCode, (c.orc d).popcount ≤ 6 := fun c d => popcount_le_six _
  calc ((csCode1 box hasz _).orc (csCode2 box hasz _)).popcount ≤ 6 := hle _ _
    _ < 8 := by omega

/-- Witness for `c10_clip_terminates` at a concrete segment and box. -/
theorem c10_clip_terminates_witness :
    (csLoop
      ⟨true, 0, 1, 0, 1, false, 0, 0, false, ⟨0, 0, true, true⟩, 0, false⟩ false 8
      ⟨0, 0, 0, 0, 0, 0⟩).isSome = true := by
  have h := c10_clip_terminates ⟨0, 0, 0, false, 0, false⟩ ⟨0, 0, 0, false, 0, false⟩
    ⟨true, 0, 1, 0, 1, false, 0, 0, false, ⟨0, 0, true, true⟩, 0, false⟩ false
    (by norm_num) (by norm_num) (by norm_num)
  simpa using h

/-! ### Border semantics of the point-in-box primitive (C6) -/

/-- An in-bounds point has a zero region code. -/
theorem computeCode_isZero_of_bounds (x y z : ℚ) (hasz : Bool) (box : STBox)
    (hx1 : box.xmin ≤ x) (hx2 : x ≤ box.xmax)
    (hy1 : box.ymin ≤ y) (hy2 : y ≤ box.ymax)
    (hz1 : hasz = true → box.zmin ≤ z) (hz2 : hasz = true → z ≤ box.zmax) :
    (computeCode x y z hasz box).isZero = true := by
  have l1 : ¬ x < box.xmin := not_lt.mpr hx1
  have l2 : ¬ box.xmax < x := not_lt.mpr hx2
  have l3 : ¬ y < box.ymin := not_lt.mpr hy1
  have l4 : ¬ box.ymax < y := not_lt.mpr hy2
  rcases Bool.eq_false_or_eq_true hasz with hz | hz
  · have l5 : ¬ z < box.zmin := not_lt.mpr (hz1 hz)
    have l6 : ¬ box.zmax < z := not_lt.mpr (hz2 hz)
    simp [computeCode, RegionCode.isZero, l1, l2, l3, l4, l5, l6, hz]
  · simp [computeCode, RegionCode.isZero, l1, l2, l3, l4, hz]

/-- C6 counterexample: for the box x ∈ [0, 1e-6], y ∈ [0, 1] and the
point (0, 1/2) lying exactly on the x-minimum edge with y strictly
inside, the instant box membership test excludes the point when
`border_inc = false` (the whole x-extent of the box is within epsilon of
the maximum border), refuting the claim that a point on a minimum edge
is inside in both modes. -/
theorem c6_counterexample :
    (⟨⟨0, 1/2, 0, false, 0, false⟩, 0⟩ : TInstant).value.x =
      (⟨true, 0, 1/1000000, 0, 1, false, 0, 0, false, ⟨0, 0, true, true⟩, 0,
        false⟩ : STBox).xmin ∧
    (⟨true, 0, 1/1000000, 0, 1, false, 0, 0, false, ⟨0, 0, true, true⟩, 0,
        false⟩ : STBox).ymin < (1/2 : ℚ) ∧
    (1/2 : ℚ) < (⟨true, 0, 1/1000000, 0, 1, false, 0, 0, false, ⟨0, 0, true, true⟩,
        0, false⟩ : STBox).ymax ∧
    tpointinst_restrict_stbox_iter (1/100000) ⟨⟨0, 1/2, 0, false, 0, false⟩, 0⟩
      ⟨true, 0, 1/1000000, 0, 1, false, 0, 0, false, ⟨0, 0, true, true⟩, 0, false⟩
      true true = true ∧
    tpointinst_restrict_stbox_iter (1/100000) ⟨⟨0, 1/2, 0, false, 0, false⟩, 0⟩
      ⟨true, 0, 1/1000000, 0, 1, false, 0, 0, false, ⟨0, 0, true, true⟩, 0, false⟩
      false true = false := by
  refine ⟨by norm_num, by norm_num, by norm_num, ?_, ?_⟩ <;>
    norm_num [tpointinst_restrict_stbox_iter, computeCode, computeMaxBorderCode,
      RegionCode.isZero, MaxCode.isZero]

/-- C6 (amended): for an instant whose coordinates are within the box
bounds and the box has no time dimension, (1) the point is inside when
`border_inc = true`; (2) a point exactly on a maximum edge is outside
when `border_inc = false`; (3) a point all of whose coordinates are at
distance at least epsilon below the respective maximum bounds (in
particular, an interior point on a minimum edge of a thick box) is
inside also when `border_inc = false`. -/
theorem c6_amended (eps : ℚ) (heps : 0 < eps) (inst : TInstant) (box : STBox)
    (hast : box.hast = false)
    (hx1 : box.xmin ≤ inst.value.x) (hx2 : inst.value.x ≤ box.xmax)
    (hy1 : box.ymin ≤ inst.value.y) (hy2 : inst.value.y ≤ box.ymax)
    (hz1 : (inst.value.hasz && box.hasz) = true → box.zmin ≤ inst.value.z)
    (hz2 : (inst.value.hasz && box.hasz) = true → inst.value.z ≤ box.zmax) :
    (tpointinst_restrict_stbox_iter eps inst box true true = true) ∧
    ((inst.value.x = box.xmax ∨ inst.value.y = box.ymax ∨
        ((inst.value.hasz && box.hasz) = true ∧ inst.value.z = box.zmax)) →
      tpointinst_restrict_stbox_iter eps inst box false true = false) ∧
    ((eps ≤ box.xmax - inst.value.x) → (eps ≤ box.ymax - inst.value.y) →
      ((inst.value.hasz && box.hasz) = true → eps ≤ box.zmax - inst.value.z) →
      tpointinst_restrict_stbox_iter eps inst box false true = true) := by
  have hzero : (computeCode inst.value.x inst.value.y
      (if (inst.value.hasz && box.hasz) = true then inst.value.z else 0)
      (inst.value.hasz && box.hasz) box).isZero = true := by
    apply computeCode_isZero_of_bounds _ _ _ _ _ hx1 hx2 hy1 hy2
    · intro hz
      rw [if_pos hz]
      exact hz1 hz
    · intro hz
      rw [if_pos hz]
      exact hz2 hz
  refine ⟨?_, ?_, ?_⟩
  · simp only [tpointinst_restrict_stbox_iter]
    rw [hast]
    rw [if_neg (by simp)]
    rw [if_neg ?hcond]
    case hcond =>
      rintro (h | h)
      · rw [hzero] at h
        exact absurd h (by simp)
      · exact absurd h (by simp [MaxCode.isZero])
  · intro hmax
    have hmc : (if (false : Bool) then MaxCode.mk false false false
        else computeMaxBorderCode eps inst.value.x inst.value.y
          (if (inst.value.hasz && box.hasz) = true then inst.value.z else 0)
          (inst.value.hasz && box.hasz) box).isZero = false := by
      rw [if_neg (by simp)]
      rcases hmax with h | h | ⟨hz, h⟩
      · simp [computeMaxBorderCode, MaxCode.isZero, h, heps]
      · simp [computeMaxBorderCode, MaxCode.isZero, h, heps]
      · simp [computeMaxBorderCode, MaxCode.isZero, hz, h, heps]
    simp only [tpointinst_restrict_stbox_iter]
    rw [hast]
    rw [if_neg (by simp)]
    rw [if_pos (Or.inr hmc)]
    rfl
  · intro hex hey hez
    have hmc : (if (false : Bool) then MaxCode.mk false false false
        else computeMaxBorderCode eps inst.value.x inst.value.y
          (if (inst.value.hasz && box.hasz) = true then inst.value.z else 0)
          (inst.value.hasz && box.hasz) box).isZero = true := by
      rw [if_neg (by simp)]
      have e1 : ¬ box.xmax - inst.value.x < eps := not_lt.mpr hex
      have e2 : ¬ box.ymax - inst.value.y < eps := not_lt.mpr hey
      rcases Bool.eq_false_or_eq_true (inst.value.hasz && box.hasz) with hz | hz
      · have e3 : ¬ box.zmax - inst.value.z < eps := not_lt.mpr (hez hz)
        simp [computeMaxBorderCode, MaxCode.isZero, e1, e2, e3, hz]
      · simp [computeMaxBorderCode, MaxCode.isZero, e1, e2, hz]
    simp only [tpointinst_restrict_stbox_iter]
    rw [hast]
    rw [if_neg (by simp)]
    rw [if_neg ?hcond3]
    case hcond3 =>
      rintro (h | h)
      · rw [hzero] at h
        exact absurd h (by simp)
      · rw [hmc] at h
        exact absurd h (by simp)

/-- Witness for `c6_amended` at a concrete instant and box. -/
theorem c6_amended_witness :
    tpointinst_restrict_stbox_iter 1 ⟨⟨0, 5, 0, false, 0, false⟩, 0⟩
      ⟨true, 0, 10, 0, 10, false, 0, 0, false, ⟨0, 0, true, true⟩, 0, false⟩
      true true = true ∧
    tpointinst_restrict_stbox_iter 1 ⟨⟨10, 5, 0, false, 0, false⟩, 0⟩
      ⟨true, 0, 10, 0, 10, false, 0, 0, false, ⟨0, 0, true, true⟩, 0, false⟩
      false true = false ∧
    tpointinst_restrict_stbox_iter 1 ⟨⟨0, 5, 0, false, 0, false⟩, 0⟩
      ⟨true, 0, 10, 0, 10, false, 0, 0, false, ⟨0, 0, true, true⟩, 0, false⟩
      false true = true := by
  have h1 := c6_amended 1 (by norm_num) ⟨⟨0, 5, 0, false, 0, false⟩, 0⟩
    ⟨true, 0, 10, 0, 10, false, 0, 0, false, ⟨0, 0, true, true⟩, 0, false⟩
    rfl (by norm_num) (by norm_num) (by norm_num) (by norm_num)
    (by intro h; exact absurd h (by norm_num)) (by intro h; exact absurd h (by norm_num))
  have h2 := c6_amended 1 (by norm_num) ⟨⟨10, 5, 0, false, 0, false⟩, 0⟩
    ⟨true, 0, 10, 0, 10, false, 0, 0, false, ⟨0, 0, true, true⟩, 0, false⟩
    rfl (by norm_num) (by norm_num) (by norm_num) (by norm_num)
    (by intro h; exact absurd h (by norm_num)) (by intro h; exact absurd h (by norm_num))
  exact ⟨h1.1, h2.2.1 (Or.inl (by norm_num)),
    h1.2.2 (by norm_num) (by norm_num) (by intro h; exact absurd h (by norm_num))⟩

/-- C7: counterexample.  Both endpoints (5,5) and (10 - 1/200000, 5) lie
strictly inside the box [0,10] x [0,10] (their region codes are zero),
yet with `border_inc = false` `cohenSutherlandClip` accepts the segment
with unchanged coordinates but flags the second endpoint as NOT included
(`p4_inc = false`), because its x coordinate is within `MEOS_EPSILON` of
the maximum border. -/
theorem c7_counterexample :
    (computeCode 5 5 0 false
      ⟨true, 0, 10, 0, 10, false, 0, 0, false, ⟨0, 0, true, true⟩, 0,
        false⟩).isZero = true ∧
    (computeCode (1999999/200000) 5 0 false
      ⟨true, 0, 10, 0, 10, false, 0, 0, false, ⟨0, 0, true, true⟩, 0,
        false⟩).isZero = true ∧
    cohenSutherlandClip (1/100000) ⟨5, 5, 0, false, 0, false⟩
      ⟨1999999/200000, 5, 0, false, 0, false⟩
      ⟨true, 0, 10, 0, 10, false, 0, 0, false, ⟨0, 0, true, true⟩, 0, false⟩
      false false =
      some ⟨⟨5, 5, 0, false, 0, false⟩, ⟨1999999/200000, 5, 0, false, 0, false⟩,
        some true, some false⟩ := by
  refine ⟨by norm_num [computeCode, RegionCode.isZero],
    by norm_num [computeCode, RegionCode.isZero], ?_⟩
  simp only [cohenSutherlandClip]
  rw [show (8 : Nat) = 7 + 1 from rfl]
  simp only [csLoop]
  norm_num [csCode1, csCode2, computeCode, RegionCode.isZero, RegionCode.orc,
    RegionCode.interAny, computeMaxBorderCode, MaxCode.isZero, MaxCode.interAny,
    gspoint_make]

/-- C7 (amended): for a segment whose two endpoints both have zero
region code (both inside the box, borders included), the clip accepts
with output coordinates equal to the input coordinates; with
`border_inc = true` the endpoint inclusion flags are not written; with
`border_inc = false` the flags are written but report whether each
endpoint is at distance at least epsilon from every maximum border (so
an inside endpoint can be flagged as not included), and if the two
endpoints share a maximum border the segment is rejected outright. -/
theorem c7_amended (eps : ℚ) (p1 p2 : GPoint) (box : STBox) (hasz : Bool)
    (h1 : (computeCode p1.x p1.y (if hasz then p1.z else 0) hasz box).isZero = true)
    (h2 : (computeCode p2.x p2.y (if hasz then p2.z else 0) hasz box).isZero = true) :
    cohenSutherlandClip eps p1 p2 box hasz true =
      some ⟨gspoint_make p1.x p1.y p1.z hasz false p1.srid,
        gspoint_make p2.x p2.y p2.z hasz false p1.srid, none, none⟩ ∧
    ((computeMaxBorderCode eps p1.x p1.y (if hasz then p1.z else 0) hasz box).interAny
        (computeMaxBorderCode eps p2.x p2.y (if hasz then p2.z else 0) hasz box)
        = false →
      cohenSutherlandClip eps p1 p2 box hasz false =
        some ⟨gspoint_make p1.x p1.y p1.z hasz false p1.srid,
          gspoint_make p2.x p2.y p2.z hasz false p1.srid,
          some (computeMaxBorderCode eps p1.x p1.y (if hasz then p1.z else 0)
            hasz box).isZero,
          some (computeMaxBorderCode eps p2.x p2.y (if hasz then p2.z else 0)
            hasz box).isZero⟩) ∧
    ((computeMaxBorderCode eps p1.x p1.y (if hasz then p1.z else 0) hasz box).interAny
        (computeMaxBorderCode eps p2.x p2.y (if hasz then p2.z else 0) hasz box)
        = true →
      cohenSutherlandClip eps p1 p2 box hasz false = none) := by
  have b1 := isZero_bits h1
  have b2 := isZero_bits h2
  have hc : ((csCode1 box hasz
        ⟨p1.x, p1.y, if hasz then p1.z else 0, p2.x, p2.y,
          if hasz then p2.z else 0⟩).orc
      (csCode2 box hasz
        ⟨p1.x, p1.y, if hasz then p1.z else 0, p2.x, p2.y,
          if hasz then p2.z else 0⟩)).isZero = true := by
    simp only [csCode1, csCode2, RegionCode.orc, RegionCode.isZero]
    simp [b1.1, b1.2.1, b1.2.2.1, b1.2.2.2.1, b1.2.2.2.2.1, b1.2.2.2.2.2,
      b2.1, b2.2.1, b2.2.2.1, b2.2.2.2.1, b2.2.2.2.2.1, b2.2.2.2.2.2]
  have hloop : csLoop box hasz 8
      ⟨p1.x, p1.y, if hasz then p1.z else 0, p2.x, p2.y,
        if hasz then p2.z else 0⟩ =
      some (true, ⟨p1.x, p1.y, if hasz then p1.z else 0, p2.x, p2.y,
        if hasz then p2.z else 0⟩) := by
    rw [show (8 : Nat) = 7 + 1 from rfl]
    simp only [csLoop]
    rw [if_pos hc]
  have hg1 : gspoint_make p1.x p1.y (if hasz then p1.z else 0) hasz false p1.srid
      = gspoint_make p1.x p1.y p1.z hasz false p1.srid := by
    cases hasz <;> simp [gspoint_make]
  have hg2 : gspoint_make p2.x p2.y (if hasz then p2.z else 0) hasz false p1.srid
      = gspoint_make p2.x p2.y p2.z hasz false p1.srid := by
    cases hasz <;> simp [gspoint_make]
  refine ⟨?_, ?_, ?_⟩
  · simp only [cohenSutherlandClip]
    rw [hloop]
    simp [hg1, hg2]
  · intro hne
    simp only [cohenSutherlandClip]
    rw [hloop]
    simp [hg1, hg2, hne]
  · intro hyes
    simp only [cohenSutherlandClip]
    rw [hloop]
    simp [hyes]

/-- Witness for `c7_amended` on the segment (2,2)-(3,3) inside the box
[0,10] x [0,10]. -/
theorem c7_amended_witness :
    cohenSutherlandClip 1 ⟨2, 2, 0, false, 0, false⟩ ⟨3, 3, 0, false, 0, false⟩
      ⟨true, 0, 10, 0, 10, false, 0, 0, false, ⟨0, 0, true, true⟩, 0, false⟩
      false true =
      some ⟨⟨2, 2, 0, false, 0, false⟩, ⟨3, 3, 0, false, 0, false⟩, none, none⟩ ∧
    cohenSutherlandClip 1 ⟨2, 2, 0, false, 0, false⟩ ⟨3, 3, 0, false, 0, false⟩
      ⟨true, 0, 10, 0, 10, false, 0, 0, false, ⟨0, 0, true, true⟩, 0, false⟩
      false false =
      some ⟨⟨2, 2, 0, false, 0, false⟩, ⟨3, 3, 0, false, 0, false⟩,
        some true, some true⟩ := by
  have h := c7_amended 1 ⟨2, 2, 0, false, 0, false⟩ ⟨3, 3, 0, false, 0, false⟩
    ⟨true, 0, 10, 0, 10, false, 0, 0, false, ⟨0, 0, true, true⟩, 0, false⟩ false
    (by norm_num [computeCode, RegionCode.isZero])
    (by norm_num [computeCode, RegionCode.isZero])
  have h2 := h.2.1 (by norm_num [computeMaxBorderCode, MaxCode.interAny])
  refine ⟨?_, ?_⟩
  · simpa [gspoint_make] using h.1
  · norm_num [gspoint_make, computeMaxBorderCode, MaxCode.isZero] at h2
    exact h2

/-- C3: counterexample.  Calling the geometry restriction entry point
with an EMPTY geometry (here one that would even fail the SRID and Z
parameter tests) does not raise an error: it returns NULL in At mode and
a copy of the input in Minus mode, whatever the bounding-box oracle and
dispatch would do. -/
theorem c3_counterexample :
    tpoint_restrict_geom_time (.inst ⟨⟨0, 0, 0, false, 0, false⟩, 0⟩)
      ⟨true, 5, true⟩ none true false (fun _ => none) = .ok none ∧
    tpoint_restrict_geom_time (.inst ⟨⟨0, 0, 0, false, 0, false⟩, 0⟩)
      ⟨true, 5, true⟩ none false false (fun _ => none) =
      .ok (some (.inst ⟨⟨0, 0, 0, false, 0, false⟩, 0⟩)) := by
  constructor <;> rfl

/-- C3 (amended): for every temporal point and every empty geometry,
the geometry restriction entry point returns successfully BEFORE any
parameter validation, bounding-box or splitting work: NULL in At mode
and a copy of the input in Minus mode, for every value of the
bounding-box oracle and of the dispatch. -/
theorem c3_amended (temp : Temporal) (gs : Geom) (zspan : Option Span)
    (atfunc bboxOverlaps : Bool) (dispatch : Bool → Option Temporal)
    (h : gs.isEmpty = true) :
    tpoint_restrict_geom_time temp gs zspan atfunc bboxOverlaps dispatch =
      .ok (if atfunc then none else some temp) := by
  simp [tpoint_restrict_geom_time, h]

/-- Witness for `c3_amended` on a concrete instant and empty geometry. -/
theorem c3_amended_witness :
    tpoint_restrict_geom_time (.inst ⟨⟨1, 2, 0, false, 0, false⟩, 3⟩)
      ⟨true, 5, true⟩ none true true (fun _ => none) =
      .ok (if true then none else some (.inst ⟨⟨1, 2, 0, false, 0, false⟩, 3⟩)) :=
  c3_amended (.inst ⟨⟨1, 2, 0, false, 0, false⟩, 3⟩) ⟨true, 5, true⟩ none
    true true (fun _ => none) rfl

/-- C4: when the bounding boxes do not overlap (`bboxOverlaps = false`)
and all the parameter tests pass, neither entry point fails: both return
NULL (empty result) in At mode and a copy of the input in Minus mode,
for every dispatch. -/
theorem c4_bbox_short_circuit (temp : Temporal) (gs : Geom)
    (zspan : Option Span) (box : STBox) (atfunc : Bool)
    (rp d1 d2 : Bool → Option Temporal)
    (hne : gs.isEmpty = false) (hsr : tpoint_srid temp = gs.srid)
    (hgz : gs.hasZ = false)
    (hz : zspan.isSome = true → tpoint_hasZ temp = true)
    (hx : box.hasx = true) (hbs : tpoint_srid temp = box.srid)
    (hbg : tpoint_geodetic temp = box.geodetic) :
    tpoint_restrict_geom_time temp gs zspan atfunc false d1 =
      .ok (if atfunc then none else some temp) ∧
    tpoint_restrict_stbox temp box atfunc rp false d2 =
      .ok (if atfunc then none else some temp) := by
  have hzc : (zspan.isSome && ! tpoint_hasZ temp) = false := by
    cases hs : zspan.isSome with
    | false => simp
    | true => simp [hz hs]
  constructor
  · simp [tpoint_restrict_geom_time, hne, hsr, hgz, hzc]
  · simp [tpoint_restrict_stbox, hx, hbs, hbg]

/-- Witness for `c4_bbox_short_circuit` on a concrete instant, geometry
and box in At mode. -/
theorem c4_bbox_short_circuit_witness :
    tpoint_restrict_geom_time (.inst ⟨⟨1, 2, 0, false, 0, false⟩, 3⟩)
      ⟨false, 0, false⟩ none true false (fun _ => none) =
      .ok (if true then none else some (.inst ⟨⟨1, 2, 0, false, 0, false⟩, 3⟩)) ∧
    tpoint_restrict_stbox (.inst ⟨⟨1, 2, 0, false, 0, false⟩, 3⟩)
      ⟨true, 0, 1, 0, 1, false, 0, 0, false, ⟨0, 0, true, true⟩, 0, false⟩
      true (fun _ => none) false (fun _ => none) =
      .ok (if true then none else some (.inst ⟨⟨1, 2, 0, false, 0, false⟩, 3⟩)) :=
  c4_bbox_short_circuit (.inst ⟨⟨1, 2, 0, false, 0, false⟩, 3⟩)
    ⟨false, 0, false⟩ none
    ⟨true, 0, 1, 0, 1, false, 0, 0, false, ⟨0, 0, true, true⟩, 0, false⟩
    true (fun _ => none) (fun _ => none) (fun _ => none)
    rfl rfl rfl (fun h => by simp at h) rfl rfl rfl

/-- C8: for a step sequence [V1@t1, V2@t2, V2@t3) whose first value
passes the geometry test and whose second value fails it (no Z span, no
period), the At restriction is exactly the single step fragment
[V1@t1, V1@t2): the passing value is extended up to and excluding the
failing instant's timestamp t2. -/
theorem c8_step_extends (t1 t2 t3 : ℚ) (V1 V2 : GPoint)
    (intersects : GPoint → Bool)
    (h12 : t1 < t2) (h23 : t2 < t3)
    (hV1 : intersects V1 = true) (hV2 : intersects V2 = false) :
    tpointseq_step_restrict_geom_time_at
      ⟨[⟨V1, t1⟩, ⟨V2, t2⟩, ⟨V2, t3⟩], true, false, .STEP⟩
      intersects none none =
      some [⟨[⟨V1, t1⟩, ⟨V1, t2⟩], true, false, .STEP⟩] := by
  simp [tpointseq_step_restrict_geom_time_at, tpointseq_step_at_geom_time_iter,
    stepGeomLoop, tpointinst_restrict_geom_time_iter, hV1, hV2,
    TSequence.count, TSequence.startT, TSequence.instN]

/-- Witness for `c8_step_extends` at a concrete step sequence and
geometry test. -/
theorem c8_step_extends_witness :
    tpointseq_step_restrict_geom_time_at
      ⟨[⟨⟨0, 0, 0, false, 0, false⟩, 0⟩, ⟨⟨5, 5, 0, false, 0, false⟩, 1⟩,
        ⟨⟨5, 5, 0, false, 0, false⟩, 2⟩], true, false, .STEP⟩
      (fun p => decide (p.x = 0)) none none =
      some [⟨[⟨⟨0, 0, 0, false, 0, false⟩, 0⟩, ⟨⟨0, 0, 0, false, 0, false⟩, 1⟩],
        true, false, .STEP⟩] :=
  c8_step_extends 0 1 2 ⟨0, 0, 0, false, 0, false⟩ ⟨5, 5, 0, false, 0, false⟩
    (fun p => decide (p.x = 0)) (by norm_num) (by norm_num)
    (by decide) (by decide)

end MobilityDB
